import Mathlib

/-!
Verification of the path-following and speed-profile engine of the rail-ride
prototype (source file src/unnamed/part_000).

The numeric code of the engine is embedded shallowly:

* Ordinary finite JavaScript numbers are modelled by an arbitrary linear
  ordered field `α` (instantiated at `ℚ` for concrete evaluation and at `ℝ`
  for the geometric parts that involve square roots and arc cosines).
* The special values `NaN`, `Infinity` and `-Infinity`, which the source
  handles explicitly (`isFinite` guards, comparisons with `NaN` being false),
  are modelled by the wrapper type `JSNum α`.
* The mutable module-level arrays (`sampledPts`, `cumLen`, `sAtPoint`,
  `segSpeeds`, `turnAngle`, control points, `totalLen`) are gathered in the
  record `PathState`; the tunable speed-profile inputs read from the DOM are
  gathered in `SpeedConfig`.

Each definition mirrors one function of the source file; line numbers refer
to src/unnamed/part_000.
-/

/-! ## JavaScript number model -/

/-- A JavaScript number: either one of the non-finite values or a finite
number drawn from the field `α`. -/
inductive JSNum (α : Type) where
  | nan : JSNum α
  | posInf : JSNum α
  | negInf : JSNum α
  | num : α → JSNum α
deriving DecidableEq

namespace JSNum

/-- `isFinite` from JavaScript: true exactly on ordinary numbers. -/
def isFinite {α : Type} : JSNum α → Bool
  | num _ => true
  | _ => false

/-- The finite value carried by a `JSNum`; `0` for the non-finite values
(only ever used behind an `isFinite` guard). -/
def toNum {α : Type} [Zero α] : JSNum α → α
  | num x => x
  | _ => 0

/-- `Math.min`: `NaN` if either argument is `NaN`, otherwise the usual
minimum with the infinities ordered at the ends. -/
def jsMin {α : Type} [LinearOrder α] : JSNum α → JSNum α → JSNum α
  | nan, _ => nan
  | _, nan => nan
  | negInf, _ => negInf
  | _, negInf => negInf
  | posInf, b => b
  | a, posInf => a
  | num a, num b => num (min a b)

/-- `Math.max`: `NaN` if either argument is `NaN`, otherwise the usual
maximum with the infinities ordered at the ends. -/
def jsMax {α : Type} [LinearOrder α] : JSNum α → JSNum α → JSNum α
  | nan, _ => nan
  | _, nan => nan
  | posInf, _ => posInf
  | _, posInf => posInf
  | negInf, b => b
  | a, negInf => a
  | num a, num b => num (max a b)

/-- The JavaScript comparison `a < d` for a finite `a` and an arbitrary
number `d`; every comparison against `NaN` is false. -/
def ltNum {α : Type} [LinearOrder α] (a : α) : JSNum α → Bool
  | nan => false
  | posInf => true
  | negInf => false
  | num b => decide (a < b)

end JSNum

/-! ## Generic helpers of the source (lines 259, THREE.MathUtils) -/

/-- `clampNumber` (line 259): `Math.min(Math.max(value, lo), hi)`. -/
def clampNumber {α : Type} [LinearOrder α] (value lo hi : α) : α :=
  min (max value lo) hi

/-- `THREE.MathUtils.clamp(value, lo, hi) = Math.max(lo, Math.min(hi, value))`. -/
def mathUtilsClamp {α : Type} [LinearOrder α] (value lo hi : α) : α :=
  max lo (min hi value)

/-- `THREE.MathUtils.lerp(x, y, t) = x + (y - x) * t`. -/
def mathUtilsLerp {α : Type} [Ring α] (x y t : α) : α :=
  x + (y - x) * t

/-- Truncation toward zero, as used by the JavaScript `%` operator. -/
def jsTrunc {α : Type} [LinearOrderedField α] [FloorRing α] (q : α) : ℤ :=
  if 0 ≤ q then ⌊q⌋ else ⌈q⌉

/-- The JavaScript remainder `a % b` for `b ≠ 0`:
`a - b * trunc(a / b)` (sign follows the dividend). -/
def jsFmod {α : Type} [LinearOrderedField α] [FloorRing α] (a b : α) : α :=
  a - b * (jsTrunc (a / b) : α)

/-! ## Path state and tunable configuration -/

/-- A 3D point, mirroring `THREE.Vector3`. -/
structure Vec3 (α : Type) where
  x : α
  y : α
  z : α
deriving DecidableEq

/-- The module-level path data of the source (lines 79-106): control points,
per-segment speeds, the dense arc-length table and the per-control-point
arc-length anchors and turn angles. -/
structure PathState (α : Type) where
  sCurveControlPoints : List (Vec3 α)
  segSpeeds : List α
  sampledPts : List (Vec3 α)
  cumLen : List α
  totalLen : α
  sAtPoint : List α
  turnAngle : List α

/-- The tunable speed-profile inputs read from the DOM by `anglePercent`
and `speedAtS` (lines 1253-1281): seven angle-band percentages and the four
approach/exit window fractions. -/
structure SpeedConfig (α : Type) where
  p0_20 : α
  p20_45 : α
  p45_90 : α
  p90_120 : α
  p120_150 : α
  p150_165 : α
  p165_180 : α
  wPrevStart : α
  wPrevEnd : α
  wNextHold : α
  wNextAccel : α

/-! ## Distance-to-index binary search (lines 1241-1250) -/

/-- The `while (lo < hi)` loop of `distanceToIndex`: binary search with
`mid = (lo + hi) >> 1`, moving `lo` past `mid` when `cumLen[mid] < distance`
and otherwise lowering `hi` to `mid`.  The comparison uses the JavaScript
semantics, so a `NaN` distance always takes the `else` branch. -/
def bsearchLoop {α : Type} [LinearOrderedField α] (cumLen : List α) (d : JSNum α)
    (lo hi : ℕ) : ℕ :=
  if _h : lo < hi then
    let mid := (lo + hi) / 2
    if JSNum.ltNum (cumLen.getD mid 0) d then bsearchLoop cumLen d (mid + 1) hi
    else bsearchLoop cumLen d lo mid
  else lo
termination_by hi - lo
decreasing_by
  all_goals simp_wf
  all_goals omega

/-- `distanceToIndex` (lines 1241-1250) on an arbitrary JavaScript number:
clamp the distance into `[0, totalLen]` with `Math.max`/`Math.min` and run
the binary search over `[0, cumLen.length - 1]`. -/
def distanceToIndexJS {α : Type} [LinearOrderedField α] (cumLen : List α)
    (totalLen : α) (distance : JSNum α) : ℕ :=
  let d := JSNum.jsMax (JSNum.num 0) (JSNum.jsMin distance (JSNum.num totalLen))
  bsearchLoop cumLen d 0 (cumLen.length - 1)

/-- `distanceToIndex` applied to a finite number, the way every caller in
the source invokes it. -/
def distanceToIndex {α : Type} [LinearOrderedField α] (cumLen : List α)
    (totalLen : α) (distance : α) : ℕ :=
  distanceToIndexJS cumLen totalLen (JSNum.num distance)

/-! ## Arc-length to parameter conversion (lines 467-492) -/

/-- `sToT` (lines 467-492): `0` when the curve is empty or the input is not
finite; otherwise clamp `s`, locate the bracketing sample pair by
`distanceToIndex` and linearly interpolate the normalized parameters
`index / (sampleCount - 1)` of the pair. -/
def sToT {α : Type} [LinearOrderedField α] (st : PathState α)
    (s : JSNum α) : α :=
  if st.totalLen = 0 ∨ s.isFinite = false then 0
  else
    let targetS := mathUtilsClamp s.toNum 0 st.totalLen
    let index := distanceToIndex st.cumLen st.totalLen targetS
    if index = 0 then 0
    else if st.cumLen.length - 1 ≤ index then 1
    else
      let s0 := st.cumLen.getD (index - 1) 0
      let s1 := st.cumLen.getD index 0
      let t1 := (index : α) / ((st.sampledPts.length : α) - 1)
      let t0 := ((index : α) - 1) / ((st.sampledPts.length : α) - 1)
      let segmentLength := s1 - s0
      let segmentProgress :=
        if segmentLength = 0 then 0 else (targetS - s0) / segmentLength
      t0 + (t1 - t0) * segmentProgress

/-! ## Speed profile (lines 1253-1319) -/

/-- `anglePercent` (lines 1253-1262): the step function over the seven
fixed angle bands, each band contributing its configured percentage. -/
def anglePercent {α : Type} [LinearOrderedField α] (cfg : SpeedConfig α)
    (deg : α) : α :=
  if deg ≤ 20 then cfg.p0_20 / 100
  else if deg ≤ 45 then cfg.p20_45 / 100
  else if deg ≤ 90 then cfg.p45_90 / 100
  else if deg ≤ 120 then cfg.p90_120 / 100
  else if deg ≤ 150 then cfg.p120_150 / 100
  else if deg ≤ 165 then cfg.p150_165 / 100
  else cfg.p165_180 / 100

/-- The `for` loop of `baseSegmentSpeedAtS` (lines 1267-1270): starting at
`i = 1`, return `segSpeeds[i-1]` for the first `i` with `s <= sAtPoint[i]`
(an out-of-range `sAtPoint[i]` compares false in JavaScript, hence the
bounds test), falling back to the last segment speed. -/
def baseSegLoop {α : Type} [LinearOrderedField α] (st : PathState α) (s : α)
    (i : ℕ) : α :=
  if _h : i < st.sCurveControlPoints.length then
    if i < st.sAtPoint.length ∧ s ≤ st.sAtPoint.getD i 0 then
      st.segSpeeds.getD (i - 1) 10
    else baseSegLoop st s (i + 1)
  else st.segSpeeds.getD (st.segSpeeds.length - 1) 10
termination_by st.sCurveControlPoints.length - i
decreasing_by
  simp_wf
  omega

/-- `baseSegmentSpeedAtS` (lines 1264-1273): default speed 10 for fewer
than two control points, otherwise the segment search loop. -/
def baseSegmentSpeedAtS {α : Type} [LinearOrderedField α] (st : PathState α)
    (s : α) : α :=
  if st.sCurveControlPoints.length < 2 then 10
  else baseSegLoop st s 1

/-- One iteration of the interior-turn loop of `speedAtS`
(lines 1283-1317): compute the normalized positions of `s` in the previous
and next segment of turn point `i` and overwrite the speed inside the
approach window, the hold region and the exit window. -/
def turnAdjust {α : Type} [LinearOrderedField α] (cfg : SpeedConfig α)
    (st : PathState α) (s : α) (v : α) (i : ℕ) : α :=
  let sPrevA := st.sAtPoint.getD (i - 1) 0
  let sPrevB := st.sAtPoint.getD i 0
  let sNextA := st.sAtPoint.getD i 0
  let sNextB := st.sAtPoint.getD (i + 1) 0
  let prevLen := max (1 / 1000000) (sPrevB - sPrevA)
  let nextLen := max (1 / 1000000) (sNextB - sNextA)
  let tPrev := mathUtilsClamp ((s - sPrevA) / prevLen) 0 1
  let tNext := mathUtilsClamp ((s - sNextA) / nextLen) 0 1
  let prevV := st.segSpeeds.getD (i - 1) v
  let nextV := st.segSpeeds.getD i v
  let minPct := anglePercent cfg (st.turnAngle.getD i 0)
  let minV := min prevV nextV * minPct
  let v1 :=
    if sPrevA ≤ s ∧ s ≤ sPrevB then
      if cfg.wPrevStart ≤ tPrev ∧ tPrev ≤ cfg.wPrevEnd then
        mathUtilsLerp prevV minV
          (mathUtilsClamp ((tPrev - cfg.wPrevStart) /
            max (1 / 1000000) (cfg.wPrevEnd - cfg.wPrevStart)) 0 1)
      else if cfg.wPrevEnd < tPrev ∧ tPrev ≤ 1 then minV
      else v
    else v
  if sNextA ≤ s ∧ s ≤ sNextB then
    if tNext ≤ cfg.wNextHold then minV
    else if cfg.wNextHold < tNext ∧ tNext ≤ cfg.wNextAccel then
      mathUtilsLerp minV nextV
        (mathUtilsClamp ((tNext - cfg.wNextHold) /
          max (1 / 1000000) (cfg.wNextAccel - cfg.wNextHold)) 0 1)
    else v1
  else v1

/-- `speedAtS` (lines 1275-1319): the base segment speed adjusted by each
interior turn point in order (`i = 1 .. n-2`), finally clamped to `>= 0`
by `Math.max(0, v)`. -/
def speedAtS {α : Type} [LinearOrderedField α] (cfg : SpeedConfig α)
    (st : PathState α) (s : α) : α :=
  let v0 := baseSegmentSpeedAtS st s
  max 0 ((List.range' 1 (st.sCurveControlPoints.length - 2)).foldl
    (turnAdjust cfg st s) v0)

/-! ## Ride clock (lines 1325-1362) -/

/-- The per-ride mutable state of the ride clock: `rideProgressS`,
`isRideActive` and `isRideLooping` (lines 227-230). -/
structure RideState (α : Type) where
  progressS : α
  active : Bool
  looping : Bool
deriving DecidableEq

/-- The ride-advancing slice of `renderLoop` (lines 1341-1362): while the
ride is active, advance `rideProgressS` by `speedAtS(rideProgressS) * dt`;
on reaching or passing `totalLen` either wrap with the JavaScript `%`
operator and stay active (looping) or clamp to `totalLen` and go idle. -/
def renderLoopAdvance {α : Type} [LinearOrderedField α] [FloorRing α]
    (cfg : SpeedConfig α) (st : PathState α) (rs : RideState α) (dt : α) :
    RideState α :=
  if rs.active = false then rs
  else
    let s1 := rs.progressS + speedAtS cfg st rs.progressS * dt
    if st.totalLen ≤ s1 then
      if rs.looping then
        { progressS := jsFmod s1 st.totalLen, active := rs.active,
          looping := rs.looping }
      else
        { progressS := st.totalLen, active := false, looping := rs.looping }
    else
      { progressS := s1, active := rs.active, looping := rs.looping }

/-! ## Camera placement index accesses (lines 363-414) -/

/-- The indices with which `placeCameraAtPathT` (lines 369-373) reads the
`sampledPts` array after `idx = distanceToIndex(s)`: the point itself plus
the forward neighbour, or the backward neighbour at the last sample.  The
ride loop (lines 1374-1376) performs the same accesses. -/
def placeCameraSampleIndices (sampleCount idx : ℕ) : List ℕ :=
  if idx < sampleCount - 1 then [idx, idx + 1] else [idx, idx - 1]

/-! ## Segment-speed list normalization inside `loadPathFromJSON`
(lines 1146-1154) -/

/-- The segment-speed normalization of `loadPathFromJSON`: pad a short list
with the default speed 10 up to `points.length - 1`, truncate a long one,
then map every entry through `Math.max(0, parseFloat(v) || 10)` - the
JavaScript `||` turns a zero (or unparsable) entry into the default 10 and
the outer `max` clamps negatives to `0`. -/
def normalizeSegmentSpeeds {α : Type} [LinearOrderedField α] (ptsLen : ℕ)
    (segmentSpeeds : Option (List α)) : List α :=
  let need := ptsLen - 1
  let speeds0 := segmentSpeeds.getD []
  let speeds :=
    if speeds0.length < need then
      speeds0 ++ List.replicate (need - speeds0.length) 10
    else if need < speeds0.length then speeds0.take need
    else speeds0
  speeds.map (fun v => max 0 (if v = 0 then 10 else v))

/-- The hard-coded defaults of the tunable speed inputs (lines 109-110):
band percentages 100/90/75/60/10/5/1 and windows 0.625 / 1.0 / 0 / 0.5. -/
def defaultSpeedConfig {α : Type} [LinearOrderedField α] : SpeedConfig α :=
  { p0_20 := 100, p20_45 := 90, p45_90 := 75, p90_120 := 60,
    p120_150 := 10, p150_165 := 5, p165_180 := 1,
    wPrevStart := 5 / 8, wPrevEnd := 1, wNextHold := 0, wNextAccel := 1 / 2 }

/-! ## Vector geometry over the reals (THREE.Vector3 operations) -/

/-- `subVectors`. -/
def vSub {α : Type} [Ring α] (a b : Vec3 α) : Vec3 α :=
  ⟨a.x - b.x, a.y - b.y, a.z - b.z⟩

/-- `add`. -/
def vAdd {α : Type} [Ring α] (a b : Vec3 α) : Vec3 α :=
  ⟨a.x + b.x, a.y + b.y, a.z + b.z⟩

/-- `dot`. -/
def vDot {α : Type} [Ring α] (a b : Vec3 α) : α :=
  a.x * b.x + a.y * b.y + a.z * b.z

/-- `setY(0)`, flattening a direction into the horizontal plane. -/
def vSetY0 {α : Type} [Ring α] (a : Vec3 α) : Vec3 α :=
  ⟨a.x, 0, a.z⟩

/-- `lerpVectors(a, b, t)`: componentwise `a + (b - a) * t`. -/
def vLerp {α : Type} [Ring α] (a b : Vec3 α) (t : α) : Vec3 α :=
  ⟨a.x + (b.x - a.x) * t, a.y + (b.y - a.y) * t, a.z + (b.z - a.z) * t⟩

/-- `length()`: the Euclidean norm. -/
noncomputable def vLength (a : Vec3 ℝ) : ℝ :=
  Real.sqrt (a.x * a.x + a.y * a.y + a.z * a.z)

/-- `distanceTo`. -/
noncomputable def vDist (a b : Vec3 ℝ) : ℝ :=
  vLength (vSub a b)

/-- `normalize()`: `divideScalar(length() || 1)`, so the zero vector is
left unchanged (division by `1`). -/
noncomputable def vNormalize (a : Vec3 ℝ) : Vec3 ℝ :=
  let l := vLength a
  if l = 0 then a else ⟨a.x / l, a.y / l, a.z / l⟩

/-! ## Catmull-Rom curve evaluation (THREE.CatmullRomCurve3, not closed,
curve type "catmullrom") -/

/-- `CubicPoly.init(x0, x1, t0, t1)` followed by `calc(w)`:
`c0 + c1 w + c2 w^2 + c3 w^3` with the Hermite coefficients. -/
def cubicPolyCalc {α : Type} [CommRing α] (x0 x1 t0 t1 w : α) : α :=
  x0 + t0 * w + (-3 * x0 + 3 * x1 - 2 * t0 - t1) * w ^ 2 +
    (2 * x0 - 2 * x1 + t0 + t1) * w ^ 3

/-- `CubicPoly.initCatmullRom(x0, x1, x2, x3, tension)` followed by
`calc(w)`: tangents are `tension * (x2 - x0)` and `tension * (x3 - x1)`. -/
def catmullCoord {α : Type} [CommRing α] (x0 x1 x2 x3 tension w : α) : α :=
  cubicPolyCalc x1 x2 (tension * (x2 - x0)) (tension * (x3 - x1)) w

/-- `CatmullRomCurve3.getPoint(t)` for a curve that is not closed, curve
type "catmullrom".  The non-closed curve is only evaluated at `t` in
`[0, 1]`, where `intPoint` is non-negative, so the JavaScript remainder on
the indices is the non-negative remainder. -/
noncomputable def catmullRomGetPoint (pts : List (Vec3 ℝ)) (tension : ℝ)
    (t : ℝ) : Vec3 ℝ :=
  let l := pts.length
  let p := ((l : ℝ) - 1) * t
  let ip0 : ℤ := ⌊p⌋
  let w0 : ℝ := p - (ip0 : ℝ)
  let atEnd : Prop := w0 = 0 ∧ ip0 = (l : ℤ) - 1
  let ip : ℤ := if atEnd then ip0 - 1 else ip0
  let w : ℝ := if atEnd then 1 else w0
  let pget : ℤ → Vec3 ℝ := fun j => pts.getD (j.toNat % l) ⟨0, 0, 0⟩
  let p0 :=
    if 0 < ip then pget (ip - 1)
    else vAdd (vSub (pts.getD 0 ⟨0, 0, 0⟩) (pts.getD 1 ⟨0, 0, 0⟩))
      (pts.getD 0 ⟨0, 0, 0⟩)
  let p1 := pget ip
  let p2 := pget (ip + 1)
  let p3 :=
    if ip + 2 < (l : ℤ) then pget (ip + 2)
    else vAdd (vSub (pts.getD (l - 1) ⟨0, 0, 0⟩) (pts.getD (l - 2) ⟨0, 0, 0⟩))
      (pts.getD (l - 1) ⟨0, 0, 0⟩)
  ⟨catmullCoord p0.x p1.x p2.x p3.x tension w,
   catmullCoord p0.y p1.y p2.y p3.y tension w,
   catmullCoord p0.z p1.z p2.z p3.z tension w⟩

/-- `Curve.getPoints(divisions)`: the points `getPoint(d / divisions)` for
the integers `d = 0, 1, ..., floor(divisions)` (the JavaScript loop runs
while `d <= divisions`). -/
noncomputable def curveGetPoints (pts : List (Vec3 ℝ)) (tension : ℝ)
    (divisions : ℝ) : List (Vec3 ℝ) :=
  (List.range (⌊divisions⌋₊ + 1)).map
    (fun (d : ℕ) => catmullRomGetPoint pts tension ((d : ℝ) / divisions))

/-! ## Arc-length table construction (`initializePathData`, lines 416-454) -/

/-- The running state of the arc-length table construction: the sampled
point list, the cumulative length list and the accumulator `acc`. -/
structure ArcAcc where
  sampled : List (Vec3 ℝ)
  cum : List ℝ
  acc : ℝ

/-- The body of the inner sampling loop (lines 434-440): measure the
distance from the previously pushed sample to `p`, add it to `acc`, and
push `p` and the new `acc`. -/
noncomputable def pushSample (st : ArcAcc) (p : Vec3 ℝ) : ArcAcc :=
  let acc1 := st.acc + vDist p (st.sampled.getLastD ⟨0, 0, 0⟩)
  { sampled := st.sampled ++ [p], cum := st.cum ++ [acc1], acc := acc1 }

/-- The linear subdivision of one evaluated segment (lines 433-436): with
`steps = max(1, ceil(d / 0.02))`, the points `lerpVectors(a, b, k / steps)`
for `k = 1 .. steps`. -/
noncomputable def subSamples (a b : Vec3 ℝ) : List (Vec3 ℝ) :=
  let steps := max 1 ⌈vDist a b / (2 / 100 : ℝ)⌉₊
  (List.range steps).map (fun (k : ℕ) => vLerp a b (((k : ℝ) + 1) / (steps : ℝ)))

/-- The arc-length table build of `initializePathData` (lines 424-442):
start from `[points[0]]` and `[0]`, then for every consecutive pair of
evaluated points push the subdivided samples with their accumulated
distances. -/
noncomputable def buildArcTable (points : List (Vec3 ℝ)) : ArcAcc :=
  match points with
  | [] => { sampled := [], cum := [], acc := 0 }
  | p0 :: rest =>
    (List.zip (p0 :: rest) rest).foldl
      (fun st ab => (subSamples ab.1 ab.2).foldl pushSample st)
      { sampled := [p0], cum := [0], acc := 0 }

/-- The inner loop of the nearest-sample search (lines 446-450), tracking
the best index and best distance so far with a strict improvement test. -/
noncomputable def nearestSampleAux (p : Vec3 ℝ) :
    List (Vec3 ℝ) → ℕ → ℕ → ℝ → ℕ
  | [], _, bestI, _ => bestI
  | q :: rest, i, bestI, bestD =>
    if vDist q p < bestD then nearestSampleAux p rest (i + 1) i (vDist q p)
    else nearestSampleAux p rest (i + 1) bestI bestD

/-- The nearest-sample search of `initializePathData` (lines 445-452).
The JavaScript loop starts with `bestD = Infinity`, so the first sampled
point always replaces the initial state; starting the fold from the first
point mirrors that. -/
noncomputable def nearestSampleIndex (pts : List (Vec3 ℝ)) (p : Vec3 ℝ) : ℕ :=
  match pts with
  | [] => 0
  | q :: rest => nearestSampleAux p rest 1 0 (vDist q p)

/-- The results of `initializePathData`: the globals it assigns
(lines 425-452). -/
structure BuiltPath where
  sampledPts : List (Vec3 ℝ)
  cumLen : List ℝ
  totalLen : ℝ
  sAtPoint : List ℝ

/-- `initializePathData` (lines 416-454): evaluate the (not closed)
Catmull-Rom curve through the control points at
`max(2, pointCount * resScale)` divisions, build the arc-length table, and
anchor every control point at the cumulative length of its nearest sample. -/
noncomputable def initializePathData (ctrl : List (Vec3 ℝ))
    (tension resScale : ℝ) : BuiltPath :=
  let divisions : ℝ := max 2 ((ctrl.length : ℝ) * resScale)
  let points := curveGetPoints ctrl tension divisions
  let tbl := buildArcTable points
  { sampledPts := tbl.sampled, cumLen := tbl.cum, totalLen := tbl.acc,
    sAtPoint := ctrl.map
      (fun p => tbl.cum.getD (nearestSampleIndex tbl.sampled p) 0) }

/-! ## Turn angles (`computeTurnAngles`, lines 456-465) -/

/-- The turn angle at interior control point `i` (lines 459-463): the
angle, in degrees, between the normalized Y-flattened incoming and
outgoing directions, via `acos` of the clamped dot product. -/
noncomputable def turnAngleAtPoint (ctrl : List (Vec3 ℝ)) (i : ℕ) : ℝ :=
  let a := vNormalize (vSetY0
    (vSub (ctrl.getD i ⟨0, 0, 0⟩) (ctrl.getD (i - 1) ⟨0, 0, 0⟩)))
  let b := vNormalize (vSetY0
    (vSub (ctrl.getD (i + 1) ⟨0, 0, 0⟩) (ctrl.getD i ⟨0, 0, 0⟩)))
  Real.arccos (mathUtilsClamp (vDot a b) (-1) 1) * (180 / Real.pi)

/-- `computeTurnAngles` (lines 456-465): zero everywhere, overwritten with
the computed angle at every interior index `i = 1 .. n-2`. -/
noncomputable def computeTurnAngles (ctrl : List (Vec3 ℝ)) : List ℝ :=
  (List.range ctrl.length).map
    (fun i => if 1 ≤ i ∧ i + 1 < ctrl.length then turnAngleAtPoint ctrl i
      else 0)

/-! ## Path loading (`loadPathFromJSON`, lines 1119-1167, and the
rebuild it triggers, lines 1037-1069) -/

/-- The progressive vertical offset applied to `sampledPts` by
`rebuildCurveAndRoad` (lines 1066-1069): `y += cumLen[i] * heightScale`. -/
noncomputable def elevateSampledPts (sampled : List (Vec3 ℝ)) (cum : List ℝ)
    (heightScale : ℝ) : List (Vec3 ℝ) :=
  (sampled.zip cum).map
    (fun pc => ⟨pc.1.x, pc.1.y + pc.2 * heightScale, pc.1.z⟩)

/-- A successfully parsed path description: an ordered list of `{x, z}`
points and an optional list of per-segment speeds.  The `name` and `date`
fields only feed the HUD and are not part of the path state. -/
structure PathJSON where
  points : List (ℝ × ℝ)
  segmentSpeeds : Option (List ℝ)

/-- `loadPathFromJSON` (lines 1119-1167) restricted to the path state: a
parse failure is modelled by `none`; fewer than two points throw before
any mutation; otherwise the control points are replaced by
`(x, 0, z)`, the speed list is normalized, and the curve, anchors, turn
angles and elevated samples are rebuilt (`rebuildCurveAndRoad`).  The
returned flag records whether an error was surfaced via `alert`.  The
camera/ride reset and all DOM effects are outside the model. -/
noncomputable def loadPathFromJSON (st : PathState ℝ)
    (tension resScale heightScale : ℝ) (parsed : Option PathJSON) :
    PathState ℝ × Bool :=
  match parsed with
  | none => (st, true)
  | some d =>
    if d.points.length < 2 then (st, true)
    else
      let newPts := d.points.map (fun p => (⟨p.1, 0, p.2⟩ : Vec3 ℝ))
      let speeds := normalizeSegmentSpeeds newPts.length d.segmentSpeeds
      let built := initializePathData newPts tension resScale
      let angles := computeTurnAngles newPts
      ({ sCurveControlPoints := newPts,
         segSpeeds := speeds,
         sampledPts := elevateSampledPts built.sampledPts built.cumLen
           heightScale,
         cumLen := built.cumLen,
         totalLen := built.totalLen,
         sAtPoint := built.sAtPoint,
         turnAngle := angles }, false)

/-! ## Shared helper lemmas -/

/-- Adjacent-pair monotonicity of a list extends to arbitrary index pairs. -/
theorem chain'_le_getD {α : Type} [LinearOrder α] [Zero α] {l : List α}
    (h : l.Chain' (· ≤ ·)) {i j : ℕ} (hij : i ≤ j) (hj : j < l.length) :
    l.getD i 0 ≤ l.getD j 0 := by
  rcases eq_or_lt_of_le hij with rfl | hlt
  · exact le_rfl
  · rw [List.getD_eq_getElem l 0 (lt_of_le_of_lt hij hj),
      List.getD_eq_getElem l 0 hj]
    exact List.pairwise_iff_getElem.mp (List.chain'_iff_pairwise.mp h) i j
      (lt_of_le_of_lt hij hj) hj hlt

/-- The last entry of a nonempty list through `getD`. -/
theorem getD_length_sub_one {α : Type} [Zero α] {l : List α} (h : l ≠ []) :
    l.getD (l.length - 1) 0 = l.getLast h := by
  rw [List.getLast_eq_getElem]
  exact List.getD_eq_getElem l 0 (by simp [List.length_pos.mpr h])

/-- `speedAtS` ends with `Math.max(0, v)`, so it is never negative. -/
theorem speedAtS_nonneg_aux {α : Type} [LinearOrderedField α]
    (cfg : SpeedConfig α) (st : PathState α) (s : α) :
    0 ≤ speedAtS cfg st s :=
  le_max_left 0 _

/-- `jsFmod a b` lands in `[0, b)` whenever `0 < b ≤ a`. -/
theorem jsFmod_mem_Ico {α : Type} [LinearOrderedField α] [FloorRing α]
    {a b : α} (hb : 0 < b) (hab : b ≤ a) :
    0 ≤ jsFmod a b ∧ jsFmod a b < b := by
  have hq : 0 ≤ a / b := div_nonneg (le_trans hb.le hab) hb.le
  have hkey : jsFmod a b = b * Int.fract (a / b) := by
    unfold jsFmod jsTrunc
    rw [if_pos hq, Int.fract]
    have hb0 : b ≠ 0 := ne_of_gt hb
    field_simp
  rw [hkey]
  exact ⟨mul_nonneg hb.le (Int.fract_nonneg _),
    (mul_lt_iff_lt_one_right hb).mpr (Int.fract_lt_one _)⟩

/-! ## C1 -/

/-- C1: for every arc length `s` in `[0, totalLen]` on a built path with at
least two control points, and for any configuration of segment speeds, turn
angles, window fractions and angle-band percentages, `speedAtS s` is
non-negative. -/
theorem speedAtS_nonneg {α : Type} [LinearOrderedField α]
    (cfg : SpeedConfig α) (st : PathState α) (s : α)
    (hpts : 2 ≤ st.sCurveControlPoints.length)
    (hs0 : 0 ≤ s) (hsL : s ≤ st.totalLen) :
    0 ≤ speedAtS cfg st s :=
  speedAtS_nonneg_aux cfg st s

/-- A small fully explicit path state over `ℚ`, used to instantiate
hypotheses of the general theorems. -/
def smallState : PathState ℚ :=
  { sCurveControlPoints := [⟨0, 0, 0⟩, ⟨1, 0, 0⟩],
    segSpeeds := [10],
    sampledPts := [⟨0, 0, 0⟩, ⟨1, 0, 0⟩],
    cumLen := [0, 1],
    totalLen := 1,
    sAtPoint := [0, 1],
    turnAngle := [0, 0] }

/-- Witness for C1 at a concrete state and input. -/
theorem speedAtS_nonneg_witness :
    2 ≤ smallState.sCurveControlPoints.length ∧ (0 : ℚ) ≤ 1 / 2 ∧
      (1 / 2 : ℚ) ≤ smallState.totalLen ∧
      0 ≤ speedAtS defaultSpeedConfig smallState (1 / 2) :=
  ⟨by norm_num [smallState], by norm_num, by norm_num [smallState],
    speedAtS_nonneg defaultSpeedConfig smallState (1 / 2)
      (by norm_num [smallState]) (by norm_num) (by norm_num [smallState])⟩

/-! ## C5 -/

/-- C5: on a frame advance while the ride is active, reaching or passing
`totalLen` either wraps the progress into `[0, totalLen)` by the modulo and
keeps the ride active (looping) or sets it to exactly `totalLen` and
deactivates the ride; otherwise the progress stays in `[0, totalLen)`. -/
theorem renderLoopAdvance_spec {α : Type} [LinearOrderedField α]
    [FloorRing α] (cfg : SpeedConfig α) (st : PathState α) (rs : RideState α)
    (dt : α) (hact : rs.active = true) (hs0 : 0 ≤ rs.progressS)
    (hdt : 0 ≤ dt) (hL : 0 < st.totalLen) :
    (st.totalLen ≤ rs.progressS + speedAtS cfg st rs.progressS * dt →
      (rs.looping = true →
        0 ≤ (renderLoopAdvance cfg st rs dt).progressS ∧
        (renderLoopAdvance cfg st rs dt).progressS < st.totalLen ∧
        (renderLoopAdvance cfg st rs dt).active = true) ∧
      (rs.looping = false →
        (renderLoopAdvance cfg st rs dt).progressS = st.totalLen ∧
        (renderLoopAdvance cfg st rs dt).active = false)) ∧
    (rs.progressS + speedAtS cfg st rs.progressS * dt < st.totalLen →
      0 ≤ (renderLoopAdvance cfg st rs dt).progressS ∧
      (renderLoopAdvance cfg st rs dt).progressS < st.totalLen) := by
  have hs1 : 0 ≤ rs.progressS + speedAtS cfg st rs.progressS * dt :=
    add_nonneg hs0 (mul_nonneg (speedAtS_nonneg_aux cfg st rs.progressS) hdt)
  unfold renderLoopAdvance
  rw [hact]
  simp only [Bool.true_eq_false, if_false]
  constructor
  · intro hend
    rw [if_pos hend]
    constructor
    · intro hloop
      rw [hloop]
      simp only [if_true]
      have h := jsFmod_mem_Ico hL hend
      exact ⟨h.1, h.2, by simp⟩
    · intro hloop
      rw [hloop]
      simp
  · intro hend
    rw [if_neg (not_le.mpr hend)]
    exact ⟨hs1, hend⟩

/-- A concrete active, looping ride state over `ℚ`. -/
def loopingRide : RideState ℚ :=
  { progressS := 1 / 2, active := true, looping := true }

/-- Witness for C5 at a concrete state: one frame advance from `s = 1/2`
with `dt = 1`. -/
theorem renderLoopAdvance_spec_witness :
    loopingRide.active = true ∧ (0 : ℚ) ≤ loopingRide.progressS ∧
      (0 : ℚ) ≤ 1 ∧ 0 < smallState.totalLen ∧
      (smallState.totalLen ≤
          loopingRide.progressS +
            speedAtS defaultSpeedConfig smallState loopingRide.progressS * 1 →
        (loopingRide.looping = true →
          0 ≤ (renderLoopAdvance defaultSpeedConfig smallState loopingRide
                1).progressS ∧
          (renderLoopAdvance defaultSpeedConfig smallState loopingRide
                1).progressS < smallState.totalLen ∧
          (renderLoopAdvance defaultSpeedConfig smallState loopingRide
                1).active = true) ∧
        (loopingRide.looping = false →
          (renderLoopAdvance defaultSpeedConfig smallState loopingRide
                1).progressS = smallState.totalLen ∧
          (renderLoopAdvance defaultSpeedConfig smallState loopingRide
                1).active = false)) :=
  ⟨rfl, by norm_num [loopingRide], by norm_num, by norm_num [smallState],
    (renderLoopAdvance_spec defaultSpeedConfig smallState loopingRide 1 rfl
      (by norm_num [loopingRide]) (by norm_num)
      (by norm_num [smallState])).1⟩

/-! ## C9 -/

/-- C9: on unparsable JSON or fewer than two points, `loadPathFromJSON`
surfaces an error and leaves the whole previous path state unchanged. -/
theorem loadPathFromJSON_error_atomic (st : PathState ℝ)
    (tension resScale heightScale : ℝ) (parsed : Option PathJSON)
    (hbad : parsed = none ∨ ∃ d, parsed = some d ∧ d.points.length < 2) :
    loadPathFromJSON st tension resScale heightScale parsed = (st, true) := by
  rcases hbad with rfl | ⟨d, rfl, hd⟩
  · rfl
  · simp only [loadPathFromJSON]
    rw [if_pos hd]

/-- An empty previous path state over `ℝ`. -/
def emptyRealState : PathState ℝ :=
  { sCurveControlPoints := [], segSpeeds := [], sampledPts := [],
    cumLen := [], totalLen := 0, sAtPoint := [], turnAngle := [] }

/-- Witness for C9: a failed parse leaves a concrete state untouched. -/
theorem loadPathFromJSON_error_atomic_witness :
    ((none : Option PathJSON) = none ∨
      ∃ d, (none : Option PathJSON) = some d ∧ d.points.length < 2) ∧
      loadPathFromJSON emptyRealState 0 10 0 none = (emptyRealState, true) :=
  ⟨Or.inl rfl,
    loadPathFromJSON_error_atomic emptyRealState 0 10 0 none (Or.inl rfl)⟩

/-! ## C8 -/

/-- Counterexample to C8 as stated: a supplied speed entry `0` is not left
unchanged - the `parseFloat(v) || 10` fallback turns it into the default
10 (and the padding then fills the rest). -/
theorem normalizeSegmentSpeeds_counterexample :
    normalizeSegmentSpeeds 3 (some [(0 : ℚ)]) = [10, 10] ∧
      (normalizeSegmentSpeeds 3 (some [(0 : ℚ)])).getD 0 0 ≠ 0 := by
  constructor
  · norm_num [normalizeSegmentSpeeds, List.replicate]
  · norm_num [normalizeSegmentSpeeds, List.replicate]

/-- C8 (amended): the normalized list has exactly `points.length - 1`
entries; a short list is padded with the default 10 and a long one is
truncated; each supplied entry is mapped through
`max(0, v == 0 ? 10 : v)`, so positive entries are left unchanged while
`0` becomes the default 10 and negatives are clamped to `0`. -/
theorem normalizeSegmentSpeeds_spec {α : Type} [LinearOrderedField α]
    (ptsLen : ℕ) (speeds : List α) (h2 : 2 ≤ ptsLen) :
    (normalizeSegmentSpeeds ptsLen (some speeds)).length = ptsLen - 1 ∧
    (∀ i, i < speeds.length → i < ptsLen - 1 →
      (normalizeSegmentSpeeds ptsLen (some speeds)).getD i 0 =
        max 0 (if speeds.getD i 0 = 0 then 10 else speeds.getD i 0)) ∧
    (∀ i, i < speeds.length → i < ptsLen - 1 → 0 < speeds.getD i 0 →
      (normalizeSegmentSpeeds ptsLen (some speeds)).getD i 0 =
        speeds.getD i 0) ∧
    (∀ i, speeds.length ≤ i → i < ptsLen - 1 →
      (normalizeSegmentSpeeds ptsLen (some speeds)).getD i 0 = 10) := by
  classical
  have hout : normalizeSegmentSpeeds ptsLen (some speeds) =
      (if speeds.length < ptsLen - 1 then
        speeds ++ List.replicate (ptsLen - 1 - speeds.length) 10
      else if ptsLen - 1 < speeds.length then speeds.take (ptsLen - 1)
      else speeds).map (fun v => max 0 (if v = 0 then 10 else v)) := rfl
  set padded : List α :=
    (if speeds.length < ptsLen - 1 then
      speeds ++ List.replicate (ptsLen - 1 - speeds.length) 10
    else if ptsLen - 1 < speeds.length then speeds.take (ptsLen - 1)
    else speeds) with hpadded
  have hplen : padded.length = ptsLen - 1 := by
    rw [hpadded]
    split_ifs with ha hb
    · simp only [List.length_append, List.length_replicate]
      omega
    · simp only [List.length_take]
      omega
    · omega
  have hpget : ∀ i, i < speeds.length → i < ptsLen - 1 →
      padded.getD i 0 = speeds.getD i 0 := by
    intro i hi hn
    rw [hpadded]
    split_ifs with ha hb
    · rw [List.getD_eq_getElem _ 0
          (by simp only [List.length_append, List.length_replicate]; omega),
        List.getD_eq_getElem speeds 0 hi]
      exact List.getElem_append_left hi
    · rw [List.getD_eq_getElem _ 0 (by simp only [List.length_take]; omega),
        List.getD_eq_getElem speeds 0 hi]
      simp [List.getElem_take]
    · rfl
  have hpget2 : ∀ i, speeds.length ≤ i → i < ptsLen - 1 →
      padded.getD i 0 = 10 := by
    intro i hi hn
    rw [hpadded]
    have ha : speeds.length < ptsLen - 1 := by omega
    rw [if_pos ha]
    rw [List.getD_eq_getElem _ 0
        (by simp only [List.length_append, List.length_replicate]; omega)]
    rw [List.getElem_append_right (by omega)]
    exact List.getElem_replicate ..
  have hmapget : ∀ i, i < ptsLen - 1 →
      (normalizeSegmentSpeeds ptsLen (some speeds)).getD i 0 =
        max 0 (if padded.getD i 0 = 0 then 10 else padded.getD i 0) := by
    intro i hn
    rw [hout]
    rw [List.getD_eq_getElem _ 0 (by simpa [hplen] using hn)]
    rw [List.getElem_map]
    rw [List.getD_eq_getElem padded 0 (by omega)]
  refine ⟨by rw [hout]; simp [hplen], ?_, ?_, ?_⟩
  · intro i hi hn
    rw [hmapget i hn, hpget i hi hn]
  · intro i hi hn hpos
    rw [hmapget i hn, hpget i hi hn]
    rw [if_neg (ne_of_gt hpos)]
    exact max_eq_right hpos.le
  · intro i hi hn
    rw [hmapget i hn, hpget2 i hi hn]
    norm_num

/-- Witness for the amended C8 at a concrete input: 3 points, one supplied
positive speed. -/
theorem normalizeSegmentSpeeds_spec_witness :
    2 ≤ 3 ∧
    ((normalizeSegmentSpeeds 3 (some [(5 : ℚ)])).length = 3 - 1 ∧
    (∀ i, i < [(5 : ℚ)].length → i < 3 - 1 →
      (normalizeSegmentSpeeds 3 (some [(5 : ℚ)])).getD i 0 =
        max 0 (if [(5 : ℚ)].getD i 0 = 0 then 10 else [(5 : ℚ)].getD i 0)) ∧
    (∀ i, i < [(5 : ℚ)].length → i < 3 - 1 → 0 < [(5 : ℚ)].getD i 0 →
      (normalizeSegmentSpeeds 3 (some [(5 : ℚ)])).getD i 0 =
        [(5 : ℚ)].getD i 0) ∧
    (∀ i, [(5 : ℚ)].length ≤ i → i < 3 - 1 →
      (normalizeSegmentSpeeds 3 (some [(5 : ℚ)])).getD i 0 = 10)) :=
  ⟨by norm_num, normalizeSegmentSpeeds_spec 3 [(5 : ℚ)] (by norm_num)⟩

/-! ## C2 -/

/-- The invariant carried through the arc-length table build: the two
lists stay aligned, the table starts at 0, is non-decreasing, and its last
entry is the accumulator. -/
def ArcInv (t : ArcAcc) : Prop :=
  t.sampled.length = t.cum.length ∧ t.cum.head? = some 0 ∧
    t.cum.Chain' (· ≤ ·) ∧ t.cum.getLast? = some t.acc

/-- One push preserves the build invariant: the appended cumulative entry
adds a non-negative Euclidean distance. -/
theorem pushSample_inv (t : ArcAcc) (p : Vec3 ℝ) (h : ArcInv t) :
    ArcInv (pushSample t p) := by
  obtain ⟨hlen, hhead, hchain, hlast⟩ := h
  have hne : t.cum ≠ [] := by
    intro hnil
    rw [hnil] at hlast
    simp at hlast
  have hd : 0 ≤ vDist p (t.sampled.getLastD ⟨0, 0, 0⟩) := Real.sqrt_nonneg _
  refine ⟨?_, ?_, ?_, ?_⟩
  · simp only [pushSample, List.length_append, List.length_cons,
      List.length_nil, hlen]
  · simpa only [pushSample, List.head?_append_of_ne_nil _ hne] using hhead
  · refine List.chain'_append.mpr ⟨hchain, List.chain'_singleton _, ?_⟩
    intro x hx y hy
    rw [hlast] at hx
    simp only [Option.mem_def, Option.some_inj] at hx
    simp only [pushSample, List.head?_cons, Option.mem_def,
      Option.some_inj] at hy
    subst hx
    subst hy
    linarith
  · simp only [pushSample]
    rw [List.getLast?_concat]

/-- Folding pushes over any point list preserves the build invariant. -/
theorem foldl_pushSample_inv (l : List (Vec3 ℝ)) (t : ArcAcc)
    (h : ArcInv t) : ArcInv (l.foldl pushSample t) := by
  induction l generalizing t with
  | nil => exact h
  | cons p rest ih => exact ih _ (pushSample_inv t p h)

/-- Folding whole subdivided segments preserves the build invariant. -/
theorem foldl_segments_inv (l : List (Vec3 ℝ × Vec3 ℝ)) (t : ArcAcc)
    (h : ArcInv t) :
    ArcInv (l.foldl
      (fun st ab => (subSamples ab.1 ab.2).foldl pushSample st) t) := by
  induction l generalizing t with
  | nil => exact h
  | cons ab rest ih => exact ih _ (foldl_pushSample_inv _ t h)

/-- The arc table built from any nonempty evaluated point list satisfies
the build invariant. -/
theorem buildArcTable_inv (points : List (Vec3 ℝ)) (h : points ≠ []) :
    ArcInv (buildArcTable points) := by
  match points, h with
  | p0 :: rest, _ =>
    exact foldl_segments_inv _ _
      ⟨rfl, rfl, List.chain'_singleton _, rfl⟩

/-- C2: after `initializePathData`, the cumulative table is aligned with
the sampled points, starts at 0, is non-decreasing, and ends at
`totalLen`. -/
theorem initializePathData_cumLen_invariants (ctrl : List (Vec3 ℝ))
    (tension resScale : ℝ) (hpts : 2 ≤ ctrl.length) :
    (initializePathData ctrl tension resScale).cumLen.length =
      (initializePathData ctrl tension resScale).sampledPts.length ∧
    (initializePathData ctrl tension resScale).cumLen.head? = some 0 ∧
    (initializePathData ctrl tension resScale).cumLen.Chain' (· ≤ ·) ∧
    (initializePathData ctrl tension resScale).cumLen.getLast? =
      some (initializePathData ctrl tension resScale).totalLen := by
  have hne : curveGetPoints ctrl tension
      (max 2 ((ctrl.length : ℝ) * resScale)) ≠ [] := by
    unfold curveGetPoints
    simp only [ne_eq, List.map_eq_nil_iff, List.range_eq_nil]
    exact Nat.succ_ne_zero _
  have h := buildArcTable_inv _ hne
  obtain ⟨hlen, hhead, hchain, hlast⟩ := h
  exact ⟨hlen.symm, hhead, hchain, hlast⟩

/-- Witness for C2 at a concrete two-point control polygon. -/
theorem initializePathData_cumLen_invariants_witness :
    2 ≤ ([⟨0, 0, 0⟩, ⟨1, 0, 0⟩] : List (Vec3 ℝ)).length ∧
    ((initializePathData [⟨0, 0, 0⟩, ⟨1, 0, 0⟩] 0.5 10).cumLen.length =
      (initializePathData [⟨0, 0, 0⟩, ⟨1, 0, 0⟩] 0.5 10).sampledPts.length ∧
    (initializePathData [⟨0, 0, 0⟩, ⟨1, 0, 0⟩] 0.5 10).cumLen.head? =
      some 0 ∧
    (initializePathData [⟨0, 0, 0⟩, ⟨1, 0, 0⟩] 0.5 10).cumLen.Chain'
      (· ≤ ·) ∧
    (initializePathData [⟨0, 0, 0⟩, ⟨1, 0, 0⟩] 0.5 10).cumLen.getLast? =
      some (initializePathData [⟨0, 0, 0⟩, ⟨1, 0, 0⟩] 0.5 10).totalLen) :=
  ⟨by norm_num,
    initializePathData_cumLen_invariants [⟨0, 0, 0⟩, ⟨1, 0, 0⟩] 0.5 10
      (by norm_num)⟩

/-! ## Binary search lemmas (shared by C3, C4, C10) -/

/-- The binary search never leaves `[lo, hi]` (for `lo ≤ hi`), whatever
the comparison outcomes - including a `NaN` distance. -/
theorem bsearchLoop_bounds {α : Type} [LinearOrderedField α]
    (cumLen : List α) (d : JSNum α) :
    ∀ (k lo hi : ℕ), hi - lo ≤ k →
      lo ≤ bsearchLoop cumLen d lo hi ∧
        (lo ≤ hi → bsearchLoop cumLen d lo hi ≤ hi) := by
  intro k
  induction k with
  | zero =>
    intro lo hi hk
    rw [bsearchLoop]
    rcases Nat.lt_or_ge lo hi with hlt | hge
    · omega
    · rw [dif_neg (by omega)]
      exact ⟨le_rfl, fun h => h⟩
  | succ k ih =>
    intro lo hi hk
    rw [bsearchLoop]
    by_cases hlt : lo < hi
    · rw [dif_pos hlt]
      by_cases hcond : JSNum.ltNum (cumLen.getD ((lo + hi) / 2) 0) d = true
      · rw [if_pos hcond]
        have h2 := ih ((lo + hi) / 2 + 1) hi (by omega)
        exact ⟨by omega, fun _ => h2.2 (by omega)⟩
      · rw [if_neg hcond]
        have h2 := ih lo ((lo + hi) / 2) (by omega)
        exact ⟨h2.1, fun _ => by have := h2.2 (by omega); omega⟩
    · rw [dif_neg hlt]
      exact ⟨le_rfl, fun h => h⟩

/-- Every index below the binary search result holds a value strictly
below the (finite) search distance, on a sorted table. -/
theorem bsearchLoop_below {α : Type} [LinearOrderedField α]
    (cumLen : List α) (x : α)
    (hs : ∀ i j, i ≤ j → j < cumLen.length → cumLen.getD i 0 ≤ cumLen.getD j 0) :
    ∀ (k lo hi : ℕ), hi - lo ≤ k → hi < cumLen.length →
      (∀ j, j < lo → cumLen.getD j 0 < x) →
      ∀ j, j < bsearchLoop cumLen (JSNum.num x) lo hi →
        cumLen.getD j 0 < x := by
  intro k
  induction k with
  | zero =>
    intro lo hi hk hhi hlo
    rw [bsearchLoop]
    rcases Nat.lt_or_ge lo hi with hlt | hge
    · omega
    · rw [dif_neg (by omega)]
      exact hlo
  | succ k ih =>
    intro lo hi hk hhi hlo
    rw [bsearchLoop]
    by_cases hlt : lo < hi
    · rw [dif_pos hlt]
      by_cases hcond : JSNum.ltNum (cumLen.getD ((lo + hi) / 2) 0)
          (JSNum.num x) = true
      · rw [if_pos hcond]
        have hmidlt : cumLen.getD ((lo + hi) / 2) 0 < x := by
          simpa [JSNum.ltNum] using hcond
        refine ih ((lo + hi) / 2 + 1) hi (by omega) hhi ?_
        intro j hj
        rcases Nat.lt_or_ge j lo with hjlo | hjlo
        · exact hlo j hjlo
        · exact lt_of_le_of_lt (hs j ((lo + hi) / 2) (by omega) (by omega))
            hmidlt
      · rw [if_neg hcond]
        exact ih lo ((lo + hi) / 2) (by omega) (by omega) hlo
    · rw [dif_neg hlt]
      exact hlo

/-- The binary search result holds a value at least the (finite) search
distance, provided the top of the range does. -/
theorem bsearchLoop_at_least {α : Type} [LinearOrderedField α]
    (cumLen : List α) (x : α) :
    ∀ (k lo hi : ℕ), hi - lo ≤ k → lo ≤ hi →
      x ≤ cumLen.getD hi 0 →
      x ≤ cumLen.getD (bsearchLoop cumLen (JSNum.num x) lo hi) 0 := by
  intro k
  induction k with
  | zero =>
    intro lo hi hk hle hhi
    rw [bsearchLoop]
    rcases Nat.lt_or_ge lo hi with hlt | hge
    · omega
    · rw [dif_neg (by omega)]
      have : lo = hi := by omega
      rw [this]
      exact hhi
  | succ k ih =>
    intro lo hi hk hle hhi
    rw [bsearchLoop]
    by_cases hlt : lo < hi
    · rw [dif_pos hlt]
      by_cases hcond : JSNum.ltNum (cumLen.getD ((lo + hi) / 2) 0)
          (JSNum.num x) = true
      · rw [if_pos hcond]
        exact ih ((lo + hi) / 2 + 1) hi (by omega) (by omega) hhi
      · rw [if_neg hcond]
        have hmid : x ≤ cumLen.getD ((lo + hi) / 2) 0 := by
          simpa [JSNum.ltNum] using hcond
        exact ih lo ((lo + hi) / 2) (by omega) (by omega) hmid
    · rw [dif_neg hlt]
      have : lo = hi := by omega
      rw [this]
      exact hhi

/-- `distanceToIndex` on a finite input is the binary search at the
clamped distance. -/
theorem distanceToIndex_eq_bsearch {α : Type} [LinearOrderedField α]
    (cumLen : List α) (totalLen s : α) :
    distanceToIndex cumLen totalLen s =
      bsearchLoop cumLen (JSNum.num (max 0 (min s totalLen))) 0
        (cumLen.length - 1) := rfl

/-! ## C3 -/

/-- C3: on a nonempty non-decreasing cumulative table (starting at 0 with
last entry `totalLen`), `distanceToIndex s` returns the smallest index
whose entry is `>= s` for `s` in `[0, totalLen]`, and is monotone in `s`. -/
theorem distanceToIndex_spec {α : Type} [LinearOrderedField α]
    (cumLen : List α) (totalLen : α) (hne : cumLen ≠ [])
    (hchain : cumLen.Chain' (· ≤ ·)) (hhead : cumLen.head? = some 0)
    (hlast : cumLen.getLast? = some totalLen) :
    (∀ s : α, 0 ≤ s → s ≤ totalLen →
      s ≤ cumLen.getD (distanceToIndex cumLen totalLen s) 0 ∧
      ∀ j, j < distanceToIndex cumLen totalLen s → cumLen.getD j 0 < s) ∧
    (∀ s1 s2 : α, s1 ≤ s2 →
      distanceToIndex cumLen totalLen s1 ≤ distanceToIndex cumLen totalLen s2) := by
  have hlen0 : 0 < cumLen.length := List.length_pos.mpr hne
  have hsorted : ∀ i j, i ≤ j → j < cumLen.length →
      cumLen.getD i 0 ≤ cumLen.getD j 0 :=
    fun i j hij hj => chain'_le_getD hchain hij hj
  have hlastD : cumLen.getD (cumLen.length - 1) 0 = totalLen := by
    rw [getD_length_sub_one hne]
    rw [List.getLast?_eq_getLast _ hne] at hlast
    exact Option.some_inj.mp hlast
  have hheadD : cumLen.getD 0 0 = 0 := by
    cases cumLen with
    | nil => exact absurd rfl hne
    | cons a t =>
      simp only [List.head?_cons, Option.some_inj] at hhead
      simpa using hhead
  have h0le : 0 ≤ totalLen := by
    rw [← hheadD, ← hlastD]
    exact hsorted 0 (cumLen.length - 1) (by omega) (by omega)
  constructor
  · intro s hs0 hsL
    have hclamp : max 0 (min s totalLen) = s := by
      rw [min_eq_left hsL, max_eq_right hs0]
    constructor
    · rw [distanceToIndex_eq_bsearch, hclamp]
      exact bsearchLoop_at_least cumLen s cumLen.length 0 (cumLen.length - 1)
        (by omega) (by omega) (by rw [hlastD]; exact hsL)
    · intro j hj
      rw [distanceToIndex_eq_bsearch, hclamp] at hj
      exact bsearchLoop_below cumLen s hsorted cumLen.length 0
        (cumLen.length - 1) (by omega) (by omega)
        (fun j hj => absurd hj (Nat.not_lt_zero j)) j hj
  · intro s1 s2 h12
    by_contra hcon
    push_neg at hcon
    have hd12 : max 0 (min s1 totalLen) ≤ max 0 (min s2 totalLen) :=
      max_le_max le_rfl (min_le_min h12 le_rfl)
    have hb2 : max 0 (min s2 totalLen) ≤
        cumLen.getD (distanceToIndex cumLen totalLen s2) 0 := by
      rw [distanceToIndex_eq_bsearch]
      exact bsearchLoop_at_least cumLen _ cumLen.length 0 (cumLen.length - 1)
        (by omega) (by omega)
        (by rw [hlastD]; exact max_le h0le (min_le_right _ _))
    have hb1 : cumLen.getD (distanceToIndex cumLen totalLen s2) 0 <
        max 0 (min s1 totalLen) := by
      have hj : distanceToIndex cumLen totalLen s2 <
          distanceToIndex cumLen totalLen s1 := hcon
      rw [distanceToIndex_eq_bsearch] at hj
      exact bsearchLoop_below cumLen _ hsorted cumLen.length 0
        (cumLen.length - 1) (by omega) (by omega)
        (fun j hj => absurd hj (Nat.not_lt_zero j)) _ hj
    exact absurd (lt_of_le_of_lt hb2 hb1) (not_lt.mpr hd12)

/-- Witness for C3 on the concrete table `[0, 1, 2]`. -/
theorem distanceToIndex_spec_witness :
    (([0, 1, 2] : List ℚ) ≠ [] ∧ ([0, 1, 2] : List ℚ).Chain' (· ≤ ·) ∧
      ([0, 1, 2] : List ℚ).head? = some 0 ∧
      ([0, 1, 2] : List ℚ).getLast? = some 2) ∧
    ((∀ s : ℚ, 0 ≤ s → s ≤ 2 →
      s ≤ ([0, 1, 2] : List ℚ).getD (distanceToIndex [0, 1, 2] 2 s) 0 ∧
      ∀ j, j < distanceToIndex ([0, 1, 2] : List ℚ) 2 s →
        ([0, 1, 2] : List ℚ).getD j 0 < s) ∧
    (∀ s1 s2 : ℚ, s1 ≤ s2 →
      distanceToIndex ([0, 1, 2] : List ℚ) 2 s1 ≤
        distanceToIndex ([0, 1, 2] : List ℚ) 2 s2)) :=
  ⟨⟨by simp, by simp [List.chain'_cons], rfl, rfl⟩,
    distanceToIndex_spec [0, 1, 2] 2 (by simp) (by simp [List.chain'_cons])
      rfl rfl⟩

/-! ## C10 -/

/-- C10: for every input - `NaN` and out-of-range values included -
`distanceToIndexJS` stays inside the nonempty cumulative table, and the
`sampledPts` accesses of the camera placement and ride loop are in
bounds whenever the sample list matches the table (at least 2 samples). -/
theorem distanceToIndex_safe {α : Type} [LinearOrderedField α]
    (cumLen : List α) (totalLen : α) (sampleCount : ℕ) (hne : cumLen ≠ [])
    (hlen : sampleCount = cumLen.length) :
    (∀ d : JSNum α, distanceToIndexJS cumLen totalLen d < cumLen.length) ∧
    (2 ≤ sampleCount → ∀ d : JSNum α,
      ∀ j ∈ placeCameraSampleIndices sampleCount
        (distanceToIndexJS cumLen totalLen d), j < sampleCount) := by
  have hlen0 : 0 < cumLen.length := List.length_pos.mpr hne
  have hidx : ∀ d : JSNum α,
      distanceToIndexJS cumLen totalLen d ≤ cumLen.length - 1 := by
    intro d
    exact (bsearchLoop_bounds cumLen
      (JSNum.jsMax (JSNum.num 0) (JSNum.jsMin d (JSNum.num totalLen)))
      cumLen.length 0 (cumLen.length - 1) (by omega)).2 (by omega)
  constructor
  · intro d
    have := hidx d
    omega
  · intro h2 d j hj
    have hb := hidx d
    unfold placeCameraSampleIndices at hj
    split_ifs at hj with hcase
    · simp only [List.mem_cons, List.not_mem_nil, or_false] at hj
      rcases hj with rfl | rfl
      · omega
      · omega
    · simp only [List.mem_cons, List.not_mem_nil, or_false] at hj
      rcases hj with rfl | rfl
      · omega
      · omega

/-- Witness for C10 on the table `[0, 1]`, exercised at the `NaN` input. -/
theorem distanceToIndex_safe_witness :
    (([0, 1] : List ℚ) ≠ [] ∧ 2 = ([0, 1] : List ℚ).length) ∧
    ((∀ d : JSNum ℚ, distanceToIndexJS [0, 1] 1 d < ([0, 1] : List ℚ).length) ∧
    (2 ≤ 2 → ∀ d : JSNum ℚ,
      ∀ j ∈ placeCameraSampleIndices 2 (distanceToIndexJS [0, 1] 1 d),
        j < 2)) ∧
    distanceToIndexJS ([0, 1] : List ℚ) 1 JSNum.nan < 2 :=
  ⟨⟨by simp, rfl⟩, distanceToIndex_safe [0, 1] 1 2 (by simp) rfl,
    (distanceToIndex_safe [0, 1] 1 2 (by simp) rfl).1 JSNum.nan⟩

/-! ## C4 -/

/-- A path state satisfying every builder invariant (`totalLen > 0`, at
least 2 samples, aligned non-decreasing table from 0 to `totalLen`) whose
cumulative table plateaus at the end - as produced by duplicate
consecutive samples (zero-length sampling steps). -/
def plateauState : PathState ℚ :=
  { sCurveControlPoints := [],
    segSpeeds := [],
    sampledPts := [⟨0, 0, 0⟩, ⟨5, 0, 0⟩, ⟨5, 0, 0⟩],
    cumLen := [0, 5, 5],
    totalLen := 5,
    sAtPoint := [],
    turnAngle := [] }

/-- Counterexample to C4 as stated: on a non-degenerate state
(`totalLen = 5 > 0`, 3 samples, all cumulative-table invariants), `sToT`
at `s = totalLen` returns `1/2`, not `1`, because the binary search lands
on the first of the two `5` entries and interpolates there. -/
theorem sToT_end_counterexample :
    (0 < plateauState.totalLen ∧ 2 ≤ plateauState.sampledPts.length ∧
      plateauState.cumLen.length = plateauState.sampledPts.length ∧
      plateauState.cumLen.head? = some 0 ∧
      plateauState.cumLen.Chain' (· ≤ ·) ∧
      plateauState.cumLen.getLast? = some plateauState.totalLen) ∧
    sToT plateauState (JSNum.num plateauState.totalLen) = 1 / 2 ∧
    (1 / 2 : ℚ) ≠ 1 := by
  refine ⟨⟨by norm_num [plateauState], by norm_num [plateauState],
    by norm_num [plateauState], rfl, by simp [plateauState, List.chain'_cons],
    rfl⟩, ?_, by norm_num⟩
  have hidx : distanceToIndex ([0, 5, 5] : List ℚ) 5 5 = 1 := by
    norm_num [distanceToIndex, distanceToIndexJS, JSNum.jsMin, JSNum.jsMax]
    rw [bsearchLoop]
    norm_num [JSNum.ltNum]
    rw [bsearchLoop]
    norm_num [JSNum.ltNum]
    rw [bsearchLoop]
    norm_num
  simp only [sToT, plateauState, JSNum.isFinite, JSNum.toNum]
  norm_num [mathUtilsClamp]
  rw [hidx]
  norm_num

/-- C4 (amended): the absorbing cases hold as stated (`totalLen = 0` or a
non-finite input give 0); on a non-degenerate table, `sToT 0 = 0`, and
`sToT` at or beyond `totalLen` gives 1 provided the final sampling step
has positive length (`cumLen[n-2] < totalLen`) - with a zero-length final
step the interpolation lands strictly below 1. -/
theorem sToT_spec {α : Type} [LinearOrderedField α] (st : PathState α)
    (hne : st.cumLen ≠ []) (hchain : st.cumLen.Chain' (· ≤ ·))
    (hhead : st.cumLen.head? = some 0)
    (hlast : st.cumLen.getLast? = some st.totalLen) :
    ((∀ s : JSNum α, s.isFinite = false → sToT st s = 0) ∧
      (st.totalLen = 0 → ∀ s : JSNum α, sToT st s = 0)) ∧
    (0 < st.totalLen → 2 ≤ st.cumLen.length →
      st.cumLen.getD (st.cumLen.length - 2) 0 < st.totalLen →
      (sToT st (JSNum.num 0) = 0 ∧
       (∀ s : α, st.totalLen ≤ s → sToT st (JSNum.num s) = 1) ∧
       sToT st (JSNum.num st.totalLen) = 1)) := by
  have hlen0 : 0 < st.cumLen.length := List.length_pos.mpr hne
  have hsorted : ∀ i j, i ≤ j → j < st.cumLen.length →
      st.cumLen.getD i 0 ≤ st.cumLen.getD j 0 :=
    fun i j hij hj => chain'_le_getD hchain hij hj
  have hlastD : st.cumLen.getD (st.cumLen.length - 1) 0 = st.totalLen := by
    rw [getD_length_sub_one hne]
    rw [List.getLast?_eq_getLast _ hne] at hlast
    exact Option.some_inj.mp hlast
  have hheadD : st.cumLen.getD 0 0 = 0 := by
    cases h : st.cumLen with
    | nil => exact absurd h hne
    | cons a t =>
      rw [h] at hhead
      simp only [List.head?_cons, Option.some_inj] at hhead
      simpa using hhead
  constructor
  · constructor
    · intro s hs
      unfold sToT
      rw [if_pos (Or.inr hs)]
    · intro h0 s
      unfold sToT
      rw [if_pos (Or.inl h0)]
  · intro hpos hlen2 hplate
    have hguard : ∀ s : α, ¬(st.totalLen = 0 ∨
        (JSNum.num s).isFinite = false) := by
      intro s
      push_neg
      exact ⟨ne_of_gt hpos, by simp [JSNum.isFinite]⟩
    have hend : ∀ s : α, st.totalLen ≤ s → sToT st (JSNum.num s) = 1 := by
      intro s hs
      have htarget : mathUtilsClamp (JSNum.toNum (JSNum.num s)) 0
          st.totalLen = st.totalLen := by
        simp only [JSNum.toNum, mathUtilsClamp]
        rw [min_eq_left hs, max_eq_right hpos.le]
      have hidx : st.cumLen.length - 1 ≤
          distanceToIndex st.cumLen st.totalLen st.totalLen := by
        by_contra hcon
        push_neg at hcon
        have hge : st.totalLen ≤
            st.cumLen.getD (distanceToIndex st.cumLen st.totalLen
              st.totalLen) 0 := by
          rw [distanceToIndex_eq_bsearch, min_self, max_eq_right hpos.le]
          exact bsearchLoop_at_least st.cumLen st.totalLen st.cumLen.length 0
            (st.cumLen.length - 1) (by omega) (by omega) (by rw [hlastD])
        have hle2 : st.cumLen.getD (distanceToIndex st.cumLen st.totalLen
            st.totalLen) 0 ≤ st.cumLen.getD (st.cumLen.length - 2) 0 :=
          hsorted _ _ (by omega) (by omega)
        linarith [hplate]
      unfold sToT
      rw [if_neg (hguard s), htarget]
      rw [if_neg (by omega : ¬distanceToIndex st.cumLen st.totalLen
        st.totalLen = 0)]
      rw [if_pos hidx]
    refine ⟨?_, hend, hend st.totalLen le_rfl⟩
    have htarget0 : mathUtilsClamp (JSNum.toNum (JSNum.num (0 : α))) 0
        st.totalLen = 0 := by
      simp only [JSNum.toNum, mathUtilsClamp]
      rw [min_eq_right hpos.le, max_self]
    have hidx0 : distanceToIndex st.cumLen st.totalLen 0 = 0 := by
      by_contra hcon
      have h1 : 0 < distanceToIndex st.cumLen st.totalLen 0 :=
        Nat.pos_of_ne_zero hcon
      have hlt := bsearchLoop_below st.cumLen
        (max 0 (min (0 : α) st.totalLen)) hsorted st.cumLen.length 0
        (st.cumLen.length - 1) (by omega) (by omega)
        (fun j hj => absurd hj (Nat.not_lt_zero j)) 0
        (by rw [distanceToIndex_eq_bsearch] at h1; exact h1)
      rw [hheadD] at hlt
      have hc0 : max 0 (min (0 : α) st.totalLen) = 0 := by
        rw [min_eq_left hpos.le, max_self]
      rw [hc0] at hlt
      exact absurd hlt (lt_irrefl 0)
    unfold sToT
    rw [if_neg (hguard 0), htarget0, if_pos hidx0]

/-- Witness for the amended C4 on the concrete table `[0, 1]`. -/
theorem sToT_spec_witness :
    (smallState.cumLen ≠ [] ∧ smallState.cumLen.Chain' (· ≤ ·) ∧
      smallState.cumLen.head? = some 0 ∧
      smallState.cumLen.getLast? = some smallState.totalLen) ∧
    (((∀ s : JSNum ℚ, s.isFinite = false → sToT smallState s = 0) ∧
      (smallState.totalLen = 0 → ∀ s : JSNum ℚ, sToT smallState s = 0)) ∧
    (0 < smallState.totalLen → 2 ≤ smallState.cumLen.length →
      smallState.cumLen.getD (smallState.cumLen.length - 2) 0 <
        smallState.totalLen →
      (sToT smallState (JSNum.num 0) = 0 ∧
       (∀ s : ℚ, smallState.totalLen ≤ s →
         sToT smallState (JSNum.num s) = 1) ∧
       sToT smallState (JSNum.num smallState.totalLen) = 1))) :=
  ⟨⟨by simp [smallState], by simp [smallState, List.chain'_cons], rfl, rfl⟩,
    sToT_spec smallState (by simp [smallState])
      (by simp [smallState, List.chain'_cons]) rfl rfl⟩

/-! ## C6 -/

/-- Folding `turnAdjust` over turn points that all leave the speed
unchanged is the identity. -/
theorem foldl_turnAdjust_id {α : Type} [LinearOrderedField α]
    (cfg : SpeedConfig α) (st : PathState α) (s : α) (L : List ℕ)
    (h : ∀ i ∈ L, ∀ v, turnAdjust cfg st s v i = v) :
    ∀ v, L.foldl (turnAdjust cfg st s) v = v := by
  induction L with
  | nil => intro v; rfl
  | cons a t ih =>
    intro v
    rw [List.foldl_cons, h a (List.mem_cons_self a t)]
    exact ih (fun i hi v => h i (List.mem_cons_of_mem a hi) v) v

set_option maxHeartbeats 1000000 in
/-- Under the default window fractions, a turn point `i` leaves the speed
unchanged at any `s` whose fraction of segment `j` lies strictly between
the exit acceleration end (1/2) and the approach window start (5/8). -/
theorem turnAdjust_id_away {α : Type} [LinearOrderedField α]
    (cfg : SpeedConfig α) (st : PathState α) (j i : ℕ) (s : α)
    (hw1 : cfg.wPrevStart = 5 / 8) (hw2 : cfg.wPrevEnd = 1)
    (hw3 : cfg.wNextHold = 0) (hw4 : cfg.wNextAccel = 1 / 2)
    (hlen : st.sAtPoint.length = st.sCurveControlPoints.length)
    (hchain : st.sAtPoint.Chain' (· ≤ ·))
    (hj : j + 1 < st.sCurveControlPoints.length)
    (hseg : 1 / 1000000 ≤ st.sAtPoint.getD (j + 1) 0 - st.sAtPoint.getD j 0)
    (hs1 : st.sAtPoint.getD j 0 +
      (1 / 2) * (st.sAtPoint.getD (j + 1) 0 - st.sAtPoint.getD j 0) < s)
    (hs2 : s < st.sAtPoint.getD j 0 +
      (5 / 8) * (st.sAtPoint.getD (j + 1) 0 - st.sAtPoint.getD j 0))
    (hi1 : 1 ≤ i) (hi2 : i + 1 < st.sCurveControlPoints.length) :
    ∀ v, turnAdjust cfg st s v i = v := by
  intro v
  have hsortedA : ∀ a b, a ≤ b → b < st.sAtPoint.length →
      st.sAtPoint.getD a 0 ≤ st.sAtPoint.getD b 0 :=
    fun a b hab hb => chain'_le_getD hchain hab hb
  have heps : (0 : α) < 1 / 1000000 := by norm_num
  have hden : (0 : α) < st.sAtPoint.getD (j + 1) 0 - st.sAtPoint.getD j 0 :=
    lt_of_lt_of_le heps hseg
  have hsAs : st.sAtPoint.getD j 0 < s := by nlinarith
  have hssB : s < st.sAtPoint.getD (j + 1) 0 := by nlinarith
  have hjlen : j + 1 < st.sAtPoint.length := by omega
  have hilen : i + 1 < st.sAtPoint.length := by omega
  unfold turnAdjust
  rcases lt_trichotomy i j with hij | rfl | hij
  · -- i < j : both windows end at or before sAtPoint[j] < s
    have hnext : ¬(st.sAtPoint.getD i 0 ≤ s ∧ s ≤ st.sAtPoint.getD (i + 1) 0) := by
      intro h
      have : st.sAtPoint.getD (i + 1) 0 ≤ st.sAtPoint.getD j 0 :=
        hsortedA _ _ (by omega) (by omega)
      linarith [h.2]
    have hprev : ¬(st.sAtPoint.getD (i - 1) 0 ≤ s ∧
        s ≤ st.sAtPoint.getD i 0) := by
      intro h
      have : st.sAtPoint.getD i 0 ≤ st.sAtPoint.getD j 0 :=
        hsortedA _ _ (by omega) (by omega)
      linarith [h.2]
    rw [if_neg hnext, if_neg hprev]
  · -- i = j (the substitution keeps i): inside the next-segment window of
    -- its own turn, strictly past the acceleration end
    have hprev : ¬(st.sAtPoint.getD (i - 1) 0 ≤ s ∧
        s ≤ st.sAtPoint.getD i 0) := by
      intro h
      linarith [h.2]
    have hnext : st.sAtPoint.getD i 0 ≤ s ∧
        s ≤ st.sAtPoint.getD (i + 1) 0 := ⟨hsAs.le, hssB.le⟩
    rw [if_pos hnext, if_neg hprev]
    have hmax : max (1 / 1000000)
        (st.sAtPoint.getD (i + 1) 0 - st.sAtPoint.getD i 0) =
        st.sAtPoint.getD (i + 1) 0 - st.sAtPoint.getD i 0 :=
      max_eq_right hseg
    rw [hmax]
    set f : α := (s - st.sAtPoint.getD i 0) /
      (st.sAtPoint.getD (i + 1) 0 - st.sAtPoint.getD i 0) with hfdef
    have hf1 : 1 / 2 < f := by
      rw [hfdef, lt_div_iff hden]
      nlinarith
    have hf2 : f < 5 / 8 := by
      rw [hfdef, div_lt_iff hden]
      nlinarith
    have hclampf : mathUtilsClamp f 0 1 = f := by
      unfold mathUtilsClamp
      rw [min_eq_right (by linarith), max_eq_right (by linarith)]
    rw [hclampf, hw3, hw4]
    rw [if_neg (by linarith : ¬f ≤ 0), if_neg (by
      intro h
      linarith [h.2])]
  · -- i > j
    rcases Nat.eq_or_lt_of_le hij with hij1 | hij2
    · -- i = j + 1 : inside the approach window segment of turn j+1, but
      -- strictly before the approach start
      subst hij1
      simp only [Nat.succ_eq_add_one, Nat.add_sub_cancel]
      have hnextF : ¬(st.sAtPoint.getD (j + 1) 0 ≤ s ∧
          s ≤ st.sAtPoint.getD (j + 1 + 1) 0) := by
        intro h
        linarith [h.1]
      have hprevT : st.sAtPoint.getD j 0 ≤ s ∧
          s ≤ st.sAtPoint.getD (j + 1) 0 := ⟨hsAs.le, hssB.le⟩
      rw [if_neg hnextF, if_pos hprevT]
      have hmax : max (1 / 1000000)
          (st.sAtPoint.getD (j + 1) 0 - st.sAtPoint.getD j 0) =
          st.sAtPoint.getD (j + 1) 0 - st.sAtPoint.getD j 0 :=
        max_eq_right hseg
      rw [hmax]
      set f : α := (s - st.sAtPoint.getD j 0) /
        (st.sAtPoint.getD (j + 1) 0 - st.sAtPoint.getD j 0) with hfdef
      have hf1 : 1 / 2 < f := by
        rw [hfdef, lt_div_iff hden]
        nlinarith
      have hf2 : f < 5 / 8 := by
        rw [hfdef, div_lt_iff hden]
        nlinarith
      have hclampf : mathUtilsClamp f 0 1 = f := by
        unfold mathUtilsClamp
        rw [min_eq_right (by linarith), max_eq_right (by linarith)]
      rw [hclampf, hw1, hw2]
      rw [if_neg (by
        intro h
        linarith [h.1]), if_neg (by
        intro h
        linarith [h.1])]
    · -- i >= j + 2 : both windows start at or after sAtPoint[j+1] > s
      have hprev : ¬(st.sAtPoint.getD (i - 1) 0 ≤ s ∧
          s ≤ st.sAtPoint.getD i 0) := by
        intro h
        have : st.sAtPoint.getD (j + 1) 0 ≤ st.sAtPoint.getD (i - 1) 0 :=
          hsortedA _ _ (by omega) (by omega)
        linarith [h.1]
      have hnext : ¬(st.sAtPoint.getD i 0 ≤ s ∧
          s ≤ st.sAtPoint.getD (i + 1) 0) := by
        intro h
        have : st.sAtPoint.getD (j + 1) 0 ≤ st.sAtPoint.getD i 0 :=
          hsortedA _ _ (by omega) (by omega)
        linarith [h.1]
      rw [if_neg hnext, if_neg hprev]

/-- The segment-search loop of `baseSegmentSpeedAtS`, started anywhere at
or below `j + 1`, finds segment `j` when `s` lies in
`(sAtPoint[j], sAtPoint[j+1]]` of a non-decreasing anchor table. -/
theorem baseSegLoop_finds {α : Type} [LinearOrderedField α]
    (st : PathState α) (s : α) (j : ℕ)
    (hlen : st.sAtPoint.length = st.sCurveControlPoints.length)
    (hchain : st.sAtPoint.Chain' (· ≤ ·))
    (hj : j + 1 < st.sCurveControlPoints.length)
    (hsAs : st.sAtPoint.getD j 0 < s)
    (hssB : s ≤ st.sAtPoint.getD (j + 1) 0) :
    ∀ i, 1 ≤ i → i ≤ j + 1 → baseSegLoop st s i = st.segSpeeds.getD j 10 := by
  suffices h : ∀ k i, i + k = j + 1 → 1 ≤ i →
      baseSegLoop st s i = st.segSpeeds.getD j 10 by
    intro i h1 h2
    exact h (j + 1 - i) i (by omega) h1
  intro k
  induction k with
  | zero =>
    intro i hik h1
    have hieq : i = j + 1 := by omega
    subst hieq
    rw [baseSegLoop]
    rw [dif_pos (by omega : j + 1 < st.sCurveControlPoints.length)]
    rw [if_pos ⟨by omega, hssB⟩]
    simp only [Nat.add_sub_cancel]
  | succ k ih =>
    intro i hik h1
    rw [baseSegLoop]
    rw [dif_pos (by omega : i < st.sCurveControlPoints.length)]
    rw [if_neg (by
      intro h
      have hle : st.sAtPoint.getD i 0 ≤ st.sAtPoint.getD j 0 :=
        chain'_le_getD hchain (by omega) (by omega)
      linarith [h.2])]
    exact ih (i + 1) (by omega) (by omega)

set_option maxHeartbeats 1000000 in
/-- C6: under the default window fractions (0.625 / 1.0 / 0 / 0.5), at any
`s` whose fraction within its control-point segment `j` lies strictly
between the exit-acceleration end (0.5) and the approach-window start
(0.625), `speedAtS` equals exactly the configured base speed of segment
`j` (10 on the uniform reference path). -/
theorem speedAtS_deep_in_segment {α : Type} [LinearOrderedField α]
    (cfg : SpeedConfig α) (st : PathState α) (j : ℕ) (s : α)
    (hw1 : cfg.wPrevStart = 5 / 8) (hw2 : cfg.wPrevEnd = 1)
    (hw3 : cfg.wNextHold = 0) (hw4 : cfg.wNextAccel = 1 / 2)
    (hlen : st.sAtPoint.length = st.sCurveControlPoints.length)
    (hchain : st.sAtPoint.Chain' (· ≤ ·))
    (hj : j + 1 < st.sCurveControlPoints.length)
    (hseg : 1 / 1000000 ≤ st.sAtPoint.getD (j + 1) 0 - st.sAtPoint.getD j 0)
    (hs1 : st.sAtPoint.getD j 0 +
      (1 / 2) * (st.sAtPoint.getD (j + 1) 0 - st.sAtPoint.getD j 0) < s)
    (hs2 : s < st.sAtPoint.getD j 0 +
      (5 / 8) * (st.sAtPoint.getD (j + 1) 0 - st.sAtPoint.getD j 0))
    (hspeed : 0 ≤ st.segSpeeds.getD j 10) :
    speedAtS cfg st s = st.segSpeeds.getD j 10 := by
  have heps : (0 : α) < 1 / 1000000 := by norm_num
  have hden : (0 : α) < st.sAtPoint.getD (j + 1) 0 - st.sAtPoint.getD j 0 :=
    lt_of_lt_of_le heps hseg
  have hsAs : st.sAtPoint.getD j 0 < s := by nlinarith
  have hssB : s < st.sAtPoint.getD (j + 1) 0 := by nlinarith
  have hbase : baseSegmentSpeedAtS st s = st.segSpeeds.getD j 10 := by
    unfold baseSegmentSpeedAtS
    rw [if_neg (by omega : ¬st.sCurveControlPoints.length < 2)]
    exact baseSegLoop_finds st s j hlen hchain hj hsAs hssB.le 1 le_rfl
      (by omega)
  unfold speedAtS
  rw [hbase]
  show (0 ⊔ List.foldl (turnAdjust cfg st s) (st.segSpeeds.getD j 10)
    (List.range' 1 (st.sCurveControlPoints.length - 2))) =
    st.segSpeeds.getD j 10
  rw [foldl_turnAdjust_id cfg st s _ (by
    intro i hi v
    rw [List.mem_range'_1] at hi
    exact turnAdjust_id_away cfg st j i s hw1 hw2 hw3 hw4 hlen hchain hj
      hseg hs1 hs2 hi.1 (by omega) v)]
  exact max_eq_right hspeed

/-- The reference path of the specification: the six-point zig-zag with
uniform segment speed 10, with concrete non-decreasing anchor values. -/
def refState : PathState ℚ :=
  { sCurveControlPoints := [⟨0, 0, 0⟩, ⟨12, 0, 12⟩, ⟨-12, 0, 24⟩,
      ⟨12, 0, 36⟩, ⟨-12, 0, 48⟩, ⟨0, 0, 60⟩],
    segSpeeds := [10, 10, 10, 10, 10],
    sampledPts := [],
    cumLen := [],
    totalLen := 85,
    sAtPoint := [0, 17, 34, 51, 68, 85],
    turnAngle := [0, 108, 127, 127, 108, 0] }

/-- Witness for C6: deep inside segment 2 of the reference path (fraction
9/16 of the segment), the speed is exactly the base speed 10. -/
theorem speedAtS_deep_in_segment_witness :
    (defaultSpeedConfig.wPrevStart = (5 / 8 : ℚ) ∧
      defaultSpeedConfig.wPrevEnd = (1 : ℚ) ∧
      defaultSpeedConfig.wNextHold = (0 : ℚ) ∧
      defaultSpeedConfig.wNextAccel = (1 / 2 : ℚ) ∧
      refState.sAtPoint.length = refState.sCurveControlPoints.length ∧
      refState.sAtPoint.Chain' (· ≤ ·) ∧
      2 + 1 < refState.sCurveControlPoints.length ∧
      1 / 1000000 ≤ refState.sAtPoint.getD 3 0 - refState.sAtPoint.getD 2 0 ∧
      refState.sAtPoint.getD 2 0 + (1 / 2) *
        (refState.sAtPoint.getD 3 0 - refState.sAtPoint.getD 2 0) <
        (697 / 16 : ℚ) ∧
      (697 / 16 : ℚ) < refState.sAtPoint.getD 2 0 + (5 / 8) *
        (refState.sAtPoint.getD 3 0 - refState.sAtPoint.getD 2 0) ∧
      (0 : ℚ) ≤ refState.segSpeeds.getD 2 10) ∧
    speedAtS defaultSpeedConfig refState (697 / 16) =
      refState.segSpeeds.getD 2 10 ∧
    refState.segSpeeds.getD 2 10 = 10 :=
  ⟨⟨rfl, rfl, rfl, rfl, rfl, by norm_num [refState, List.chain'_cons],
    by norm_num [refState], by norm_num [refState], by norm_num [refState],
    by norm_num [refState], by norm_num [refState]⟩,
    speedAtS_deep_in_segment defaultSpeedConfig refState 2 (697 / 16) rfl rfl
      rfl rfl rfl (by norm_num [refState, List.chain'_cons])
      (by norm_num [refState]) (by norm_num [refState])
      (by norm_num [refState]) (by norm_num [refState])
      (by norm_num [refState]),
    by norm_num [refState]⟩

/-! ## C7 -/

/-- The control-point list named by the specification for the reference
path: the six-point zig-zag. -/
def specPts : List (Vec3 ℝ) :=
  [⟨0, 0, 0⟩, ⟨12, 0, 12⟩, ⟨-12, 0, 24⟩, ⟨12, 0, 36⟩, ⟨-12, 0, 48⟩,
    ⟨0, 0, 60⟩]

/-- Entry `i` of `computeTurnAngles`: zero at the endpoints, the computed
angle at interior points. -/
theorem computeTurnAngles_getD (ctrl : List (Vec3 ℝ)) (i : ℕ)
    (h : i < ctrl.length) :
    (computeTurnAngles ctrl).getD i 0 =
      if 1 ≤ i ∧ i + 1 < ctrl.length then turnAngleAtPoint ctrl i else 0 := by
  unfold computeTurnAngles
  rw [List.getD_eq_getElem _ 0 (by simpa using h)]
  rw [List.getElem_map, List.getElem_range]

/-- The dot product of two normalized vectors is the dot product scaled by
both lengths. -/
theorem vNormalize_dot (v w : Vec3 ℝ) (hv : vLength v ≠ 0)
    (hw : vLength w ≠ 0) :
    vDot (vNormalize v) (vNormalize w) =
      vDot v w / (vLength v * vLength w) := by
  unfold vNormalize
  simp only [if_neg hv, if_neg hw]
  unfold vDot
  field_simp

/-- The dot product is symmetric. -/
theorem vDot_comm {α : Type} [CommRing α] (a b : Vec3 α) :
    vDot a b = vDot b a := by
  unfold vDot
  ring

/-- `THREE.MathUtils.clamp` into `[-1, 1]` is the identity on values
already there. -/
theorem clamp_pm_one (x : ℝ) (h1 : -1 ≤ x) (h2 : x ≤ 1) :
    mathUtilsClamp x (-1) 1 = x := by
  unfold mathUtilsClamp
  rw [min_eq_right h2, max_eq_right h1]

theorem vLen_12_0_12 : vLength ⟨12, 0, 12⟩ = Real.sqrt 288 := by
  norm_num [vLength]

theorem vLen_m24_0_12 : vLength ⟨-24, 0, 12⟩ = Real.sqrt 720 := by
  norm_num [vLength]

theorem vLen_24_0_12 : vLength ⟨24, 0, 12⟩ = Real.sqrt 720 := by
  norm_num [vLength]

theorem vLen_12_0_12_ne : vLength ⟨12, 0, 12⟩ ≠ 0 := by
  rw [vLen_12_0_12]
  positivity

theorem vLen_m24_0_12_ne : vLength ⟨-24, 0, 12⟩ ≠ 0 := by
  rw [vLen_m24_0_12]
  positivity

theorem vLen_24_0_12_ne : vLength ⟨24, 0, 12⟩ ≠ 0 := by
  rw [vLen_24_0_12]
  positivity

/-- The normalized horizontal directions at the first interior point have
dot product `-1/sqrt 10` (cosine of about 108.43 degrees). -/
theorem specDotA : vDot (vNormalize ⟨12, 0, 12⟩) (vNormalize ⟨-24, 0, 12⟩) =
    -(1 / Real.sqrt 10) := by
  rw [vNormalize_dot _ _ vLen_12_0_12_ne vLen_m24_0_12_ne, vLen_12_0_12,
    vLen_m24_0_12]
  rw [← Real.sqrt_mul (by norm_num : (0:ℝ) ≤ 288) 720]
  have h1 : (288 : ℝ) * 720 = 144 ^ 2 * 10 := by norm_num
  rw [h1, Real.sqrt_mul (by positivity) 10,
    Real.sqrt_sq (by norm_num : (0:ℝ) ≤ 144)]
  have h10 : (0:ℝ) < Real.sqrt 10 := Real.sqrt_pos.mpr (by norm_num)
  rw [vDot]
  norm_num
  rw [inv_eq_one_div, neg_div, neg_inj,
    div_eq_div_iff (by positivity) (by positivity)]
  ring

/-- The normalized horizontal directions at the second interior point have
dot product `-3/5` (cosine of about 126.87 degrees). -/
theorem specDotB : vDot (vNormalize ⟨-24, 0, 12⟩) (vNormalize ⟨24, 0, 12⟩) =
    -(3 / 5) := by
  rw [vNormalize_dot _ _ vLen_m24_0_12_ne vLen_24_0_12_ne, vLen_m24_0_12,
    vLen_24_0_12]
  rw [Real.mul_self_sqrt (by norm_num : (0:ℝ) ≤ 720)]
  rw [vDot]
  norm_num

theorem sqrt10_pos : (0 : ℝ) < Real.sqrt 10 := Real.sqrt_pos.mpr (by norm_num)

theorem specDotA_mem : -1 ≤ -(1 / Real.sqrt 10) ∧ -(1 / Real.sqrt 10) ≤ 1 := by
  have h10 := sqrt10_pos
  have h1 : (1 : ℝ) ≤ Real.sqrt 10 := by
    have h := Real.sqrt_le_sqrt (by norm_num : (1:ℝ) ≤ 10)
    rwa [Real.sqrt_one] at h
  constructor
  · have h2 : 1 / Real.sqrt 10 ≤ 1 := by
      rw [div_le_one h10]
      exact h1
    linarith
  · have h2 : 0 < 1 / Real.sqrt 10 := by positivity
    linarith

theorem cos_seven_pi_div_twelve :
    Real.cos (7 * Real.pi / 12) = (Real.sqrt 2 - Real.sqrt 6) / 4 := by
  have h : 7 * Real.pi / 12 = Real.pi / 3 + Real.pi / 4 := by ring
  rw [h, Real.cos_add, Real.cos_pi_div_three, Real.cos_pi_div_four,
    Real.sin_pi_div_three, Real.sin_pi_div_four]
  have h6 : Real.sqrt 6 = Real.sqrt 3 * Real.sqrt 2 := by
    rw [← Real.sqrt_mul (by norm_num : (0:ℝ) ≤ 3) 2]
    norm_num
  rw [h6]
  ring

theorem cos_three_pi_div_four :
    Real.cos (3 * Real.pi / 4) = -(Real.sqrt 2 / 2) := by
  have h : 3 * Real.pi / 4 = Real.pi - Real.pi / 4 := by ring
  rw [h, Real.cos_pi_sub, Real.cos_pi_div_four]

/-- Angles, in degrees, whose cosine is below `cos 105°` exceed 105°. -/
theorem arccos_deg_gt_105 (x : ℝ) (hx1 : -1 ≤ x)
    (hxlt : x < Real.cos (7 * Real.pi / 12)) :
    105 < Real.arccos x * (180 / Real.pi) := by
  have hpi := Real.pi_pos
  have hmem1 : x ∈ Set.Icc (-1 : ℝ) 1 :=
    ⟨hx1, le_trans hxlt.le (Real.cos_le_one _)⟩
  have hmem2 : Real.cos (7 * Real.pi / 12) ∈ Set.Icc (-1 : ℝ) 1 :=
    ⟨Real.neg_one_le_cos _, Real.cos_le_one _⟩
  have harc : Real.arccos (Real.cos (7 * Real.pi / 12)) =
      7 * Real.pi / 12 := by
    apply Real.arccos_cos
    · positivity
    · nlinarith
  have hlt : Real.arccos (Real.cos (7 * Real.pi / 12)) < Real.arccos x :=
    Real.strictAntiOn_arccos hmem1 hmem2 hxlt
  rw [harc] at hlt
  have h1 : (105 : ℝ) = (7 * Real.pi / 12) * (180 / Real.pi) := by
    field_simp
    ring
  rw [h1]
  exact mul_lt_mul_of_pos_right hlt (by positivity)

/-- Angles, in degrees, whose cosine is above `cos 135°` are below 135°. -/
theorem arccos_deg_lt_135 (x : ℝ) (hx2 : x ≤ 1)
    (hxgt : Real.cos (3 * Real.pi / 4) < x) :
    Real.arccos x * (180 / Real.pi) < 135 := by
  have hpi := Real.pi_pos
  have hmem1 : x ∈ Set.Icc (-1 : ℝ) 1 :=
    ⟨le_trans (Real.neg_one_le_cos _) hxgt.le, hx2⟩
  have hmem2 : Real.cos (3 * Real.pi / 4) ∈ Set.Icc (-1 : ℝ) 1 :=
    ⟨Real.neg_one_le_cos _, Real.cos_le_one _⟩
  have harc : Real.arccos (Real.cos (3 * Real.pi / 4)) = 3 * Real.pi / 4 := by
    apply Real.arccos_cos
    · positivity
    · nlinarith
  have hlt : Real.arccos x < Real.arccos (Real.cos (3 * Real.pi / 4)) :=
    Real.strictAntiOn_arccos hmem2 hmem1 hxgt
  rw [harc] at hlt
  have h1 : (135 : ℝ) = (3 * Real.pi / 4) * (180 / Real.pi) := by
    field_simp
    ring
  rw [h1]
  exact mul_lt_mul_of_pos_right hlt (by positivity)

theorem specDotA_lt_cos105 :
    -(1 / Real.sqrt 10) < Real.cos (7 * Real.pi / 12) := by
  rw [cos_seven_pi_div_twelve]
  have h10 := sqrt10_pos
  have h20 : (0:ℝ) ≤ Real.sqrt 20 := Real.sqrt_nonneg 20
  have h60 : (0:ℝ) ≤ Real.sqrt 60 := Real.sqrt_nonneg 60
  have hs20 : Real.sqrt 20 ^ 2 = 20 := Real.sq_sqrt (by norm_num)
  have hs60 : Real.sqrt 60 ^ 2 = 60 := Real.sq_sqrt (by norm_num)
  have hm6 : Real.sqrt 10 * Real.sqrt 6 = Real.sqrt 60 := by
    rw [← Real.sqrt_mul (by norm_num : (0:ℝ) ≤ 10) 6]
    norm_num
  have hm2 : Real.sqrt 10 * Real.sqrt 2 = Real.sqrt 20 := by
    rw [← Real.sqrt_mul (by norm_num : (0:ℝ) ≤ 10) 2]
    norm_num
  have hB : (3:ℝ) < Real.sqrt 20 := by nlinarith
  have hA : Real.sqrt 60 < 4 + Real.sqrt 20 := by
    refine lt_of_pow_lt_pow_left₀ 2 (by positivity) ?_
    nlinarith
  have key : Real.sqrt 10 * (Real.sqrt 6 - Real.sqrt 2) < 4 := by
    rw [mul_sub, hm6, hm2]
    linarith
  rw [neg_lt, show -((Real.sqrt 2 - Real.sqrt 6) / 4) =
    (Real.sqrt 6 - Real.sqrt 2) / 4 from by ring, div_lt_div_iff₀
    (by norm_num) h10]
  nlinarith

theorem specDotB_lt_cos105 :
    -(3 / 5 : ℝ) < Real.cos (7 * Real.pi / 12) := by
  rw [cos_seven_pi_div_twelve]
  have h2 : (0:ℝ) ≤ Real.sqrt 2 := Real.sqrt_nonneg 2
  have h6 : (0:ℝ) ≤ Real.sqrt 6 := Real.sqrt_nonneg 6
  have hs6 : Real.sqrt 6 ^ 2 = 6 := Real.sq_sqrt (by norm_num)
  have h2lb : (1:ℝ) ≤ Real.sqrt 2 := by
    rw [show (1:ℝ) = Real.sqrt 1 from (Real.sqrt_one).symm]
    exact Real.sqrt_le_sqrt (by norm_num)
  have h6ub : Real.sqrt 6 ≤ 49 / 20 := by
    nlinarith [sq_nonneg (Real.sqrt 6 - 49 / 20)]
  linarith

theorem specDotA_gt_cos135 :
    Real.cos (3 * Real.pi / 4) < -(1 / Real.sqrt 10) := by
  rw [cos_three_pi_div_four]
  have h10 := sqrt10_pos
  have h20 : (0:ℝ) ≤ Real.sqrt 20 := Real.sqrt_nonneg 20
  have hs20 : Real.sqrt 20 ^ 2 = 20 := Real.sq_sqrt (by norm_num)
  have hm2 : Real.sqrt 2 * Real.sqrt 10 = Real.sqrt 20 := by
    rw [← Real.sqrt_mul (by norm_num : (0:ℝ) ≤ 2) 10]
    norm_num
  have hB : (3:ℝ) < Real.sqrt 20 := by nlinarith
  rw [neg_lt_neg_iff, div_lt_div_iff₀ h10 (by norm_num)]
  nlinarith

theorem specDotB_gt_cos135 :
    Real.cos (3 * Real.pi / 4) < -(3 / 5 : ℝ) := by
  rw [cos_three_pi_div_four]
  have h2 : (0:ℝ) ≤ Real.sqrt 2 := Real.sqrt_nonneg 2
  have hs2 : Real.sqrt 2 ^ 2 = 2 := Real.sq_sqrt (by norm_num)
  have h2lb : (6 / 5 : ℝ) < Real.sqrt 2 := by
    refine lt_of_pow_lt_pow_left₀ 2 h2 ?_
    rw [hs2]
    norm_num
  linarith

theorem turnAngle_point1 : (computeTurnAngles specPts).getD 1 0 =
    Real.arccos (-(1 / Real.sqrt 10)) * (180 / Real.pi) := by
  rw [computeTurnAngles_getD specPts 1 (by norm_num [specPts])]
  rw [if_pos (by norm_num [specPts])]
  have h : turnAngleAtPoint specPts 1 =
      Real.arccos (mathUtilsClamp
        (vDot (vNormalize ⟨12, 0, 12⟩) (vNormalize ⟨-24, 0, 12⟩))
        (-1) 1) * (180 / Real.pi) := by
    unfold turnAngleAtPoint
    norm_num [specPts, vSub, vSetY0]
  rw [h, specDotA, clamp_pm_one _ specDotA_mem.1 specDotA_mem.2]

theorem turnAngle_point2 : (computeTurnAngles specPts).getD 2 0 =
    Real.arccos (-(3 / 5)) * (180 / Real.pi) := by
  rw [computeTurnAngles_getD specPts 2 (by norm_num [specPts])]
  rw [if_pos (by norm_num [specPts])]
  have h : turnAngleAtPoint specPts 2 =
      Real.arccos (mathUtilsClamp
        (vDot (vNormalize ⟨-24, 0, 12⟩) (vNormalize ⟨24, 0, 12⟩))
        (-1) 1) * (180 / Real.pi) := by
    unfold turnAngleAtPoint
    norm_num [specPts, vSub, vSetY0]
  rw [h, specDotB, clamp_pm_one _ (by norm_num) (by norm_num)]

theorem turnAngle_point3 : (computeTurnAngles specPts).getD 3 0 =
    Real.arccos (-(3 / 5)) * (180 / Real.pi) := by
  rw [computeTurnAngles_getD specPts 3 (by norm_num [specPts])]
  rw [if_pos (by norm_num [specPts])]
  have h : turnAngleAtPoint specPts 3 =
      Real.arccos (mathUtilsClamp
        (vDot (vNormalize ⟨24, 0, 12⟩) (vNormalize ⟨-24, 0, 12⟩))
        (-1) 1) * (180 / Real.pi) := by
    unfold turnAngleAtPoint
    norm_num [specPts, vSub, vSetY0]
  rw [h, vDot_comm, specDotB, clamp_pm_one _ (by norm_num) (by norm_num)]

theorem turnAngle_point4 : (computeTurnAngles specPts).getD 4 0 =
    Real.arccos (-(1 / Real.sqrt 10)) * (180 / Real.pi) := by
  rw [computeTurnAngles_getD specPts 4 (by norm_num [specPts])]
  rw [if_pos (by norm_num [specPts])]
  have h : turnAngleAtPoint specPts 4 =
      Real.arccos (mathUtilsClamp
        (vDot (vNormalize ⟨-24, 0, 12⟩) (vNormalize ⟨12, 0, 12⟩))
        (-1) 1) * (180 / Real.pi) := by
    unfold turnAngleAtPoint
    norm_num [specPts, vSub, vSetY0]
  rw [h, vDot_comm, specDotA, clamp_pm_one _ specDotA_mem.1 specDotA_mem.2]

/-- Counterexample to C7 as stated: on the specified six-point zig-zag,
the turn angle at the first interior point exceeds 105 degrees (it is
`arccos(-1/sqrt 10)`, about 108.43 degrees), so it is not approximately
90 degrees and in particular not equal to 90. -/
theorem computeTurnAngles_ninety_counterexample :
    105 < (computeTurnAngles specPts).getD 1 0 ∧
    (computeTurnAngles specPts).getD 1 0 ≠ 90 := by
  have h105 : 105 < (computeTurnAngles specPts).getD 1 0 := by
    rw [turnAngle_point1]
    exact arccos_deg_gt_105 _ specDotA_mem.1 specDotA_lt_cos105
  exact ⟨h105, by intro h; rw [h] at h105; norm_num at h105⟩

/-- C7 (amended): on the specified control list, `computeTurnAngles`
yields `deg(arccos(-1/sqrt 10))` (about 108.43°) at interior points 1 and
4 and `deg(arccos(-3/5))` (about 126.87°) at interior points 2 and 3;
each of the four interior angles lies strictly between 105° and 135°, so
none of them is approximately 90°. -/
theorem computeTurnAngles_spec_path :
    (computeTurnAngles specPts).getD 1 0 =
      Real.arccos (-(1 / Real.sqrt 10)) * (180 / Real.pi) ∧
    (computeTurnAngles specPts).getD 2 0 =
      Real.arccos (-(3 / 5)) * (180 / Real.pi) ∧
    (computeTurnAngles specPts).getD 3 0 =
      Real.arccos (-(3 / 5)) * (180 / Real.pi) ∧
    (computeTurnAngles specPts).getD 4 0 =
      Real.arccos (-(1 / Real.sqrt 10)) * (180 / Real.pi) ∧
    ∀ i, 1 ≤ i → i ≤ 4 →
      105 < (computeTurnAngles specPts).getD i 0 ∧
      (computeTurnAngles specPts).getD i 0 < 135 := by
  have hA : 105 < Real.arccos (-(1 / Real.sqrt 10)) * (180 / Real.pi) ∧
      Real.arccos (-(1 / Real.sqrt 10)) * (180 / Real.pi) < 135 :=
    ⟨arccos_deg_gt_105 _ specDotA_mem.1 specDotA_lt_cos105,
      arccos_deg_lt_135 _ specDotA_mem.2 specDotA_gt_cos135⟩
  have hB : 105 < Real.arccos (-(3 / 5) : ℝ) * (180 / Real.pi) ∧
      Real.arccos (-(3 / 5) : ℝ) * (180 / Real.pi) < 135 :=
    ⟨arccos_deg_gt_105 _ (by norm_num) specDotB_lt_cos105,
      arccos_deg_lt_135 _ (by norm_num) specDotB_gt_cos135⟩
  refine ⟨turnAngle_point1, turnAngle_point2, turnAngle_point3,
    turnAngle_point4, ?_⟩
  intro i h1 h4
  interval_cases i
  · rw [turnAngle_point1]
    exact hA
  · rw [turnAngle_point2]
    exact hB
  · rw [turnAngle_point3]
    exact hB
  · rw [turnAngle_point4]
    exact hA
